import Mathlib

/-!
Verification development for the plexus half-edge mesh topology engine.

The Rust sources are embedded shallowly:
* `src/generate/topology.rs` (`Triangle`, `Quad`, `Polygon`, `rotate`, `umod`,
  `FromIterator`) is embedded as pure Lean functions over lists; a Rust panic
  is modelled as `Option.none`.
* `src/graph/mutation/face.rs` (snapshot caches and operation drivers) is
  embedded over an explicit `Core` state value.  Rust `Result` is modelled by
  the `MRes` type below, which also has a `panic` outcome so that panicking
  paths of the Rust code stay observable.
Parts of the repository that the face-mutation layer calls but whose sources
are not available (the vertex/edge mutation layers and the view traversals)
are modelled from the specification; each such definition carries a doc
comment starting with `Modelled from the spec:`.
-/

namespace Plexus

/-! ## `generate/topology.rs`: `Triangle`, `Quad`, `Polygon` -/

/-- `Triangle<T>` from `generate/topology.rs`. -/
structure Triangle (T : Type) where
  a : T
  b : T
  c : T
  deriving DecidableEq

/-- `Quad<T>` from `generate/topology.rs`. -/
structure Quad (T : Type) where
  a : T
  b : T
  c : T
  d : T
  deriving DecidableEq

/-- `Polygon<T>` from `generate/topology.rs`: either a triangle or a quad. -/
inductive Polygon (T : Type) where
  | triangle : Triangle T → Polygon T
  | quad : Quad T → Polygon T
  deriving DecidableEq

/-- `umod` from `generate/topology.rs`: `((n % m) + m) % m`, where Rust `%`
on signed integers is truncated remainder (`Int.tmod`). -/
def umod (n m : Int) : Int :=
  (n.tmod m + m).tmod m

/-- `Triangle::rotate` from `generate/topology.rs`.  The field swap sequences
of the source amount to the cyclic shifts written here:
`n == 1` maps `(a, b, c)` to `(b, c, a)` and `n == 2` maps it to
`(c, a, b)`. -/
def Triangle.rotate {T : Type} (t : Triangle T) (n : Int) : Triangle T :=
  let n := umod n 3
  if n = 1 then ⟨t.b, t.c, t.a⟩
  else if n = 2 then ⟨t.c, t.a, t.b⟩
  else t

/-- `Quad::rotate` from `generate/topology.rs`.  The swap sequences of the
source amount to the cyclic shifts written here. -/
def Quad.rotate {T : Type} (q : Quad T) (n : Int) : Quad T :=
  let n := umod n 4
  if n = 1 then ⟨q.b, q.c, q.d, q.a⟩
  else if n = 2 then ⟨q.c, q.d, q.a, q.b⟩
  else if n = 3 then ⟨q.d, q.a, q.b, q.c⟩
  else q

/-- `Polygon::from_iter` from `generate/topology.rs`: take at most four items
from the input, return a `Quad` for four, a `Triangle` for three, and panic
(modelled as `none`) otherwise. -/
def Polygon.fromIter {T : Type} (input : List T) : Option (Polygon T) :=
  match input.take 4 with
  | [a, b, c, d] => some (Polygon.quad ⟨a, b, c, d⟩)
  | [a, b, c] => some (Polygon.triangle ⟨a, b, c⟩)
  | _ => none

/-! Arithmetic facts about `umod`. -/

theorem tmod_lower_bound (n : Int) {m : Int} (hm : 0 < m) : -m < n.tmod m := by
  rcases n with a | a
  · have h := Int.tmod_nonneg m (a := Int.ofNat a) (by simp [Int.ofNat_eq_natCast])
    omega
  · rcases m with mm | mm
    · have hmm : 0 < mm := by
        simpa [Int.ofNat_eq_natCast] using hm
      have h1 : Int.tmod (Int.negSucc a) (Int.ofNat mm) = -(Int.ofNat ((a + 1) % mm)) := rfl
      have h2 : (a + 1) % mm < mm := Nat.mod_lt _ hmm
      rw [h1]
      simp only [Int.ofNat_eq_natCast]
      omega
    · simp [Int.negSucc_eq] at hm
      omega

theorem tmod_emod_cancel (a m : Int) : a.tmod m % m = a % m := by
  rw [Int.tmod_def]
  have h : a - m * a.tdiv m = a + m * (-(a.tdiv m)) := by ring
  rw [h, Int.add_mul_emod_self_left]

theorem umod_eq_emod (n m : Int) (hm : 0 < m) : umod n m = n % m := by
  unfold umod
  have hlow := tmod_lower_bound n hm
  have hx : 0 ≤ n.tmod m + m := by omega
  rw [Int.tmod_eq_emod hx (le_of_lt hm)]
  have h : n.tmod m + m = n.tmod m + m * 1 := by ring
  rw [h, Int.add_mul_emod_self_left, tmod_emod_cancel]

theorem umod_nonneg_lt (n m : Int) (hm : 0 < m) :
    0 ≤ umod n m ∧ umod n m < m := by
  rw [umod_eq_emod n m hm]
  exact ⟨Int.emod_nonneg _ (by omega), Int.emod_lt_of_pos _ hm⟩

theorem umod_idem (n m : Int) (hm : 0 < m) :
    umod (umod n m) m = umod n m := by
  rw [umod_eq_emod n m hm, umod_eq_emod _ m hm]
  exact Int.emod_emod_of_dvd _ (dvd_refl _)

theorem umod_emod (n m : Int) (hm : 0 < m) : umod (n % m) m = umod n m := by
  rw [umod_eq_emod _ m hm, umod_eq_emod _ m hm, Int.emod_emod_of_dvd _ (dvd_refl _)]

/-- **C10**: for every `Triangle`, every `Quad` and every integer `n` (including
negative `n`), `rotate n` agrees with `rotate (n mod arity)` where the modulus
is the non-negative Euclidean one (the code's `umod` is exactly that modulus);
`rotate arity` and `rotate 0` are the identity; and composing `rotate 1`
arity-many times restores the original value. -/
theorem rotate_mod_arity_spec {T : Type} (t : Triangle T) (q : Quad T) (n : Int) :
    t.rotate n = t.rotate (n % 3) ∧
    q.rotate n = q.rotate (n % 4) ∧
    umod n 3 = n % 3 ∧ 0 ≤ n % 3 ∧
    umod n 4 = n % 4 ∧ 0 ≤ n % 4 ∧
    t.rotate 3 = t ∧ t.rotate 0 = t ∧
    q.rotate 4 = q ∧ q.rotate 0 = q ∧
    ((t.rotate 1).rotate 1).rotate 1 = t ∧
    (((q.rotate 1).rotate 1).rotate 1).rotate 1 = q := by
  have h3 : (0 : Int) < 3 := by omega
  have h4 : (0 : Int) < 4 := by omega
  refine ⟨?_, ?_, umod_eq_emod n 3 h3, Int.emod_nonneg n (by omega),
    umod_eq_emod n 4 h4, Int.emod_nonneg n (by omega), ?_, ?_, ?_, ?_, ?_, ?_⟩
  · simp only [Triangle.rotate, umod_emod n 3 h3]
  · simp only [Quad.rotate, umod_emod n 4 h4]
  · have h : umod 3 3 = 0 := by decide
    simp [Triangle.rotate, h]
  · have h : umod 0 3 = 0 := by decide
    simp [Triangle.rotate, h]
  · have h : umod 4 4 = 0 := by decide
    simp [Quad.rotate, h]
  · have h : umod 0 4 = 0 := by decide
    simp [Quad.rotate, h]
  · have h : umod 1 3 = 1 := by decide
    simp [Triangle.rotate, h]
  · have h : umod 1 4 = 1 := by decide
    simp [Quad.rotate, h]

/-- **C9**: `Polygon::from_iter` consumes at most four items of its input (its
result only depends on the first four items), panics (modelled as `none`) for
inputs of fewer than three items, returns a `Triangle` for exactly three items,
and a `Quad` as soon as four items are available. -/
theorem polygon_fromIter_spec {T : Type} (l : List T) :
    Polygon.fromIter l = Polygon.fromIter (l.take 4) ∧
    (l.length < 3 → Polygon.fromIter l = none) ∧
    (∀ a b c : T, l = [a, b, c] → Polygon.fromIter l = some (Polygon.triangle ⟨a, b, c⟩)) ∧
    (∀ (a b c d : T) (r : List T), l = a :: b :: c :: d :: r →
      Polygon.fromIter l = some (Polygon.quad ⟨a, b, c, d⟩)) := by
  refine ⟨?_, ?_, ?_, ?_⟩
  · show Polygon.fromIter l = Polygon.fromIter (l.take 4)
    unfold Polygon.fromIter
    rw [List.take_take]
    norm_num
  · intro h
    rcases l with _ | ⟨a, _ | ⟨b, _ | ⟨c, tl⟩⟩⟩
    · rfl
    · rfl
    · rfl
    · simp at h
      omega
  · rintro a b c rfl
    rfl
  · rintro a b c d r rfl
    rfl

/-- Concrete instantiation of `polygon_fromIter_spec` on short inputs. -/
theorem polygon_fromIter_spec_witness :
    Polygon.fromIter ([0, 1] : List Nat) = none ∧
    Polygon.fromIter ([0, 1, 2] : List Nat) = some (Polygon.triangle ⟨0, 1, 2⟩) ∧
    Polygon.fromIter ([0, 1, 2, 3, 4] : List Nat) = some (Polygon.quad ⟨0, 1, 2, 3⟩) :=
  ⟨(polygon_fromIter_spec [0, 1]).2.1 (by decide),
   (polygon_fromIter_spec [0, 1, 2]).2.2.1 0 1 2 rfl,
   (polygon_fromIter_spec [0, 1, 2, 3, 4]).2.2.2 0 1 2 3 [4] rfl⟩

/-! ## The half-edge graph data model (`graph/storage`, `graph/core`)

Entity payloads follow §3 of the specification and the payload types of the
source.  Geometry payloads are integers: the only geometric operation the
verified code performs is the vector translation of `FaceExtrudeCache`, which
is integer addition here.  Arc keys are ordered vertex-key pairs (derived
keys, `graph/storage/key.rs`); vertex, edge and face keys are allocated from
counters, modelling the generational key allocators of `StorageProxy`. -/

abbrev VertexKey := Nat

abbrev ArcKey := Nat × Nat

abbrev FaceKey := Nat

abbrev EdgeKey := Nat

/-- The opposite arc key: `(a, b).into_opposite() = (b, a)`. -/
def ArcKey.opposite (ab : ArcKey) : ArcKey := (ab.2, ab.1)

/-- `GraphError` (§7 of the specification). -/
inductive GraphError where
  | topologyNotFound
  | topologyMalformed
  | topologyConflict
  | arityNonUniform
  deriving DecidableEq

/-- The `Arc` payload: `next`/`previous`/`face`/`edge` links and geometry. -/
structure ArcP where
  next : Option ArcKey := none
  previous : Option ArcKey := none
  edge : Option EdgeKey := none
  face : Option FaceKey := none
  geometry : Int := 0
  deriving DecidableEq

/-- The `Vertex` payload: optional leading outgoing arc and geometry. -/
structure VertexP where
  arc : Option ArcKey := none
  geometry : Int := 0
  deriving DecidableEq

/-- The `Edge` payload: one canonical arc and geometry. -/
structure EdgeP where
  arc : ArcKey
  geometry : Int := 0
  deriving DecidableEq

/-- The `Face` payload: one interior arc and geometry. -/
structure FaceP where
  arc : ArcKey
  geometry : Int := 0
  deriving DecidableEq

/-- Association-list lookup (first matching entry), the model of
`StorageProxy::get`. -/
def alookup {K : Type} [DecidableEq K] {V : Type} : List (K × V) → K → Option V
  | [], _ => none
  | e :: rest, k => if e.1 = k then some e.2 else alookup rest k

/-- Map a function over every entry with the given key, the model of
`StorageProxy::get_mut` followed by a field write. -/
def aupdate {K : Type} [DecidableEq K] {V : Type} :
    List (K × V) → K → (V → V) → List (K × V)
  | [], _, _ => []
  | e :: rest, k, f => (if e.1 = k then (e.1, f e.2) else e) :: aupdate rest k f

/-- Remove every entry with the given key, the model of
`StorageProxy::remove`. -/
def aerase {K : Type} [DecidableEq K] {V : Type} : List (K × V) → K → List (K × V)
  | [], _ => []
  | e :: rest, k => if e.1 = k then aerase rest k else e :: aerase rest k

/-- `IteratorExt::perimeter`: consecutive pairs of a sequence including the
wrap-around pair `(last, first)`. -/
def perimeter {α : Type} (l : List α) : List (α × α) :=
  l.zip (l.rotate 1)

/-- The `Core`: the four keyed stores plus the key allocation counters. -/
structure Core where
  vertices : List (VertexKey × VertexP) := []
  arcs : List (ArcKey × ArcP) := []
  edges : List (EdgeKey × EdgeP) := []
  faces : List (FaceKey × FaceP) := []
  nextVertexKey : Nat := 0
  nextEdgeKey : Nat := 0
  nextFaceKey : Nat := 0
  deriving DecidableEq

/-- The face reference stored on an arc, read through the store (so `none`
both for a missing arc and for a boundary arc).  `is_boundary_arc` of a live
arc `k` is `arcFace c k = none`. -/
def arcFace (c : Core) (k : ArcKey) : Option FaceKey :=
  (alookup c.arcs k).bind fun a => a.face

/-- Result type of fallible mutation code: Rust `Result`, plus a `panic`
outcome so that panicking paths (out-of-bounds indexing, missing `HashMap`
keys) remain observable in the model. -/
inductive MRes (α : Type) where
  | ok : α → MRes α
  | err : GraphError → MRes α
  | panic : MRes α
  deriving DecidableEq

def MRes.bind {α β : Type} : MRes α → (α → MRes β) → MRes β
  | .ok a, f => f a
  | .err e, _ => .err e
  | .panic, _ => .panic

def MRes.map {α β : Type} (f : α → β) : MRes α → MRes β
  | .ok a => .ok (f a)
  | .err e => .err e
  | .panic => .panic

def MRes.isOk {α : Type} : MRes α → Bool
  | .ok _ => true
  | _ => false

instance : Monad MRes where
  pure := .ok
  bind := .bind
  map := .map

/-! ## Spec-modelled lower mutation layers

The face mutation layer (`graph/mutation/face.rs`, in scope) calls into the
vertex and edge mutation layers (`graph/mutation/vertex.rs` and
`graph/mutation/edge.rs`), whose sources are not part of the slice.  The
following definitions model them from §4.4 of the specification. -/

/-- Modelled from the spec: `VertexMutation::insert_vertex(payload) → key`
(§4.4) — allocate a fresh key and append the payload. -/
def insertVertex (c : Core) (g : Int) : VertexKey × Core :=
  (c.nextVertexKey,
    { c with
        vertices := c.vertices ++ [(c.nextVertexKey, { arc := none, geometry := g })]
        nextVertexKey := c.nextVertexKey + 1 })

/-- Modelled from the spec: `EdgeMutation::get_or_insert_edge(a, b, geometry)`
(§4.4) — return the existing edge if the arc pair already exists, otherwise
insert the arc pair `(a, b)`/`(b, a)` (face-less, per §4.6 newly created
opposite arcs are boundary arcs) and a fresh edge; self-incident arcs are
rejected (§3, invariant 9). -/
def getOrInsertEdge (c : Core) (ab : ArcKey) (g : Int) :
    MRes (EdgeKey × (ArcKey × ArcKey) × Core) :=
  if ab.1 = ab.2 then .err .topologyMalformed
  else
    match alookup c.arcs ab with
    | some arc => .ok (arc.edge.getD 0, (ab, ab.opposite), c)
    | none =>
      let ek := c.nextEdgeKey
      .ok (ek, (ab, ab.opposite),
        { c with
            arcs := c.arcs ++
              [(ab, { edge := some ek, geometry := g }),
               (ab.opposite, { edge := some ek, geometry := g })]
            edges := c.edges ++ [(ek, { arc := ab })]
            nextEdgeKey := ek + 1 })

/-- Modelled from the spec: `EdgeMutation`'s neighbor linking (§4.4, §4.6) —
`ab.next = bc` and `bc.previous = ab`; fails if either arc is missing. -/
def connectNeighboringArcs (c : Core) (ab bc : ArcKey) : MRes Core :=
  if (alookup c.arcs ab).isSome ∧ (alookup c.arcs bc).isSome then
    .ok { c with
            arcs :=
              aupdate (aupdate c.arcs ab fun a => { a with next := some bc })
                bc fun a => { a with previous := some ab } }
  else .err .topologyNotFound

/-- Modelled from the spec: connect an arc to a face (used by
`connect_face_interior`); fails if the arc is missing. -/
def connectArcToFace (c : Core) (ab : ArcKey) (f : FaceKey) : MRes Core :=
  if (alookup c.arcs ab).isSome then
    .ok { c with arcs := aupdate c.arcs ab fun a => { a with face := some f } }
  else .err .topologyNotFound

/-- Modelled from the spec: clear an arc's face (used by
`disconnect_face_interior`); fails if the arc is missing. -/
def disconnectArcFromFace (c : Core) (ab : ArcKey) : MRes Core :=
  if (alookup c.arcs ab).isSome then
    .ok { c with arcs := aupdate c.arcs ab fun a => { a with face := none } }
  else .err .topologyNotFound

/-! ## Spec-modelled view traversals

The view layer (`graph/view/face.rs`, `graph/view/vertex.rs`) is not part of
the slice; the ring and star traversals the snapshots use are modelled from
§4.2 and §3 of the specification. -/

/-- Modelled from the spec: the arc circulator of a face walks `next` from the
anchor arc and stops when it returns to the start or a link is missing
(§4.2: a traversal that would require a missing link returns "unreachable",
i.e. the iterator ends).  The fuel argument bounds the walk; on rings
(invariant 3) the store size suffices. -/
def ringArcsFrom (c : Core) (start : ArcKey) : Nat → ArcKey → Option (List ArcKey)
  | 0, _ => none
  | fuel + 1, cur =>
    match alookup c.arcs cur with
    | none => some []
    | some arc =>
      match arc.next with
      | none => some [cur]
      | some nxt =>
        if nxt = start then some [cur]
        else (ringArcsFrom c start fuel nxt).map fun rest => cur :: rest

/-- Modelled from the spec: `face.interior_arcs()` — the ordered interior arc
keys of a face, starting from the face's anchor arc. -/
def ringArcs (c : Core) (f : FaceKey) : Option (List ArcKey) :=
  (alookup c.faces f).bind fun face =>
    ringArcsFrom c face.arc (c.arcs.length + 1) face.arc

/-- Modelled from the spec: `face.vertices()` — the vertex ring of a face, one
vertex per interior arc (its source vertex). -/
def ringSources (c : Core) (f : FaceKey) : Option (List VertexKey) :=
  (ringArcs c f).map fun arcs => arcs.map fun ab => ab.1

/-- Modelled from the spec: `ring().distance(a, b)` (§4.2) — the hop count
from the arc with source `a` to the arc with source `b` along the interior
cycle, or `TopologyNotFound` if either vertex is not on the ring. -/
def ringDistance (ring : List VertexKey) (src dst : VertexKey) : MRes Nat :=
  match ring.findIdx? (fun v => v = src), ring.findIdx? (fun v => v = dst) with
  | some i, some j => .ok ((j + ring.length - i) % ring.length)
  | _, _ => .err .topologyNotFound

/-! ## `graph/mutation/face.rs`: snapshot caches and drivers -/

/-- Modelled from the spec: `vertex.reachable_incoming_arcs()` — the arcs
whose destination is the vertex (per §3 invariant 6 the star traversal of a
consistent core reaches exactly the live arcs with that endpoint), in store
order (§4.1: iteration order is stable; §9: insertion order of the store). -/
def incomingArcKeysOf (c : Core) (v : VertexKey) : List ArcKey :=
  c.arcs.filterMap fun e => if e.1.2 = v then some e.1 else none

/-- Modelled from the spec: `vertex.reachable_outgoing_arcs()` — the arcs
whose source is the vertex, in store order. -/
def outgoingArcKeysOf (c : Core) (v : VertexKey) : List ArcKey :=
  c.arcs.filterMap fun e => if e.1.1 = v then some e.1 else none

/-- `FaceInsertCache` (`face.rs`, lines 235-245): the vertex ring, the
incoming/outgoing connectivity captured at snapshot time, and the arc/face
geometry payloads. -/
structure FaceInsertCache where
  vertices : List VertexKey
  incoming : List (VertexKey × List ArcKey)
  outgoing : List (VertexKey × List ArcKey)
  geometry : Int × Int
  deriving DecidableEq

/-- The body of the validation loop of `FaceInsertCache::snapshot`
(`face.rs`, lines 278-306): given the consecutive pair
`(previous, next)` of optional arcs of the proposed ring, report
`TopologyConflict` if `previous` exists and is already occupied by a face or,
when `next` does not exist, if `previous`'s `next` arc is live and its
destination lies in the proposed vertex set. -/
def occupiedOrBisectCheck (c : Core) (keys : List VertexKey)
    (pair : Option ArcP × Option ArcP) : Option GraphError :=
  match pair.1 with
  | none => none
  | some arc =>
    if arc.face.isSome then some .topologyConflict
    else if pair.2.isNone then
      match arc.next with
      | some nk =>
        match alookup c.arcs nk with
        | some _ => if nk.2 ∈ keys then some .topologyConflict else none
        | none => none
      | none => none
    else none

/-- `FaceInsertCache::snapshot` (`face.rs`, lines 251-321): reject duplicate
keys (`TopologyMalformed`), missing vertices (`TopologyNotFound`), occupied
arcs and ring bisection (`TopologyConflict`); capture the incoming/outgoing
arc sets of each ring vertex. -/
def FaceInsertCache.snapshot (c : Core) (keys : List VertexKey) (geometry : Int × Int) :
    MRes FaceInsertCache :=
  if keys.dedup.length ≠ keys.length then .err .topologyMalformed
  else if (keys.filter fun k => (alookup c.vertices k).isSome).length ≠ keys.length then
    .err .topologyNotFound
  else
    let pairs := perimeter ((perimeter keys).map fun ab => alookup c.arcs ab)
    match pairs.findSome? (occupiedOrBisectCheck c keys) with
    | some e => .err e
    | none =>
      .ok { vertices := keys
            incoming := keys.map fun v => (v, incomingArcKeysOf c v)
            outgoing := keys.map fun v => (v, outgoingArcKeysOf c v)
            geometry := geometry }

/-- Monadic fold threading the mutation state through a list, the shape of
the `for` loops of the drivers. -/
def foldMRes {α : Type} (f : Core → α → MRes Core) : Core → List α → MRes Core
  | c, [] => .ok c
  | c, x :: xs =>
    match f c x with
    | .ok c1 => foldMRes f c1 xs
    | .err e => .err e
    | .panic => .panic

/-- The edge-collection loop of `insert_face_with_cache` (`face.rs`, lines
69-77): `get_or_insert_edge` on each consecutive vertex pair, collecting the
forward arcs. -/
def collectArcs (g : Int) : Core → List ArcKey → MRes (List ArcKey × Core)
  | c, [] => .ok ([], c)
  | c, p :: rest =>
    match getOrInsertEdge c p g with
    | .ok (_, (ab, _), c1) =>
      match collectArcs g c1 rest with
      | .ok (arcs, c2) => .ok (ab :: arcs, c2)
      | .err e => .err e
      | .panic => .panic
    | .err e => .err e
    | .panic => .panic

/-- `FaceMutation::connect_face_interior` (`face.rs`, lines 95-101). -/
def connectFaceInterior (c : Core) (arcs : List ArcKey) (face : FaceKey) : MRes Core :=
  foldMRes
    (fun c p => (connectNeighboringArcs c p.1 p.2).bind fun c1 => connectArcToFace c1 p.1 face)
    c (perimeter arcs)

/-- `FaceMutation::disconnect_face_interior` (`face.rs`, lines 103-108). -/
def disconnectFaceInterior (c : Core) (arcs : List ArcKey) : MRes Core :=
  foldMRes (fun c ab => disconnectArcFromFace c ab) c arcs

/-- The `or_else` fallback for `ax` in `connect_face_exterior` (`face.rs`,
lines 138-143): the opposite of the previous arc of `ab`, read through the
current core. -/
def fallbackFromPrevious (c : Core) (ab : ArcKey) : Option ArcKey :=
  (alookup c.arcs ab).bind fun arc =>
    arc.previous.bind fun pk =>
      (alookup c.arcs pk).bind fun _ =>
        (alookup c.arcs pk.opposite).map fun _ => pk.opposite

/-- The `or_else` fallback for `xb` in `connect_face_exterior` (`face.rs`,
lines 150-155): the opposite of the next arc of `ab`. -/
def fallbackFromNext (c : Core) (ab : ArcKey) : Option ArcKey :=
  (alookup c.arcs ab).bind fun arc =>
    arc.next.bind fun nk =>
      (alookup c.arcs nk).bind fun _ =>
        (alookup c.arcs nk.opposite).map fun _ => nk.opposite

/-- The candidate filter of `connect_face_exterior` (`face.rs`, lines
133-137 and 145-149): bind each captured candidate key in the *current* core,
keep the first that is a boundary arc there. -/
def firstBoundaryArc (c : Core) (candidates : List ArcKey) : Option ArcKey :=
  ((candidates.filterMap fun k => (alookup c.arcs k).map fun a => (k, a)).find?
    fun ka => ka.2.face = none).map fun ka => ka.1

/-- The per-arc neighbor choice of `connect_face_exterior` (`face.rs`, lines
119-162): for the interior arc `ab` with opposite `ba`, if `ba` is a boundary
arc, pick `ax` from the captured outgoing arcs of `a` (falling back to the
opposite of the previous arc of `ab`) and `xb` from the captured incoming
arcs of `b` (falling back to the opposite of the next arc of `ab`).  The
candidate *sets* come from the snapshot; the boundary filter and the
fallbacks read the current core.  A missing `ba` is `TopologyMalformed`; a
connectivity map without the vertex is a Rust `HashMap` index panic. -/
def exteriorNeighbors (c : Core) (incoming outgoing : List (VertexKey × List ArcKey))
    (ab : ArcKey) : MRes (Option (ArcKey × ArcKey)) :=
  let a := ab.1
  let b := ab.2
  let ba := ab.opposite
  match alookup c.arcs ba with
  | none => .err .topologyMalformed
  | some baArc =>
    if baArc.face.isSome then .ok none
    else
      match alookup outgoing a, alookup incoming b with
      | some outs, some ins =>
        let ax := (firstBoundaryArc c outs).orElse fun _ => fallbackFromPrevious c ab
        let xb := (firstBoundaryArc c ins).orElse fun _ => fallbackFromNext c ab
        match ax, xb with
        | some x, some y => .ok (some (x, y))
        | _, _ => .ok none
      | _, _ => .panic

/-- `FaceMutation::connect_face_exterior` (`face.rs`, lines 110-169): for
each interior arc, compute the splice neighbors against the evolving core and
connect `xb → ba → ax`. -/
def connectFaceExterior (c : Core) (arcs : List ArcKey)
    (incoming outgoing : List (VertexKey × List ArcKey)) : MRes Core :=
  foldMRes
    (fun c ab =>
      match exteriorNeighbors c incoming outgoing ab with
      | .ok none => .ok c
      | .ok (some (ax, xb)) =>
        (connectNeighboringArcs c ab.opposite ax).bind fun c1 =>
          connectNeighboringArcs c1 xb ab.opposite
      | .err e => .err e
      | .panic => .panic)
    c arcs

/-- `FaceMutation::insert_face_with_cache` (`face.rs`, lines 58-83): collect
the interior arcs via `get_or_insert_edge`, insert the face anchored at
`arcs[0]` (a Rust index panic when the ring is empty), connect the interior,
then repair the exterior. -/
def insertFaceWithCache (c : Core) (cache : FaceInsertCache) : MRes (FaceKey × Core) :=
  match collectArcs cache.geometry.1 c (perimeter cache.vertices) with
  | .ok (arcs, c1) =>
    match arcs with
    | [] => .panic
    | a0 :: _ =>
      let fk := c1.nextFaceKey
      let c2 := { c1 with
                    faces := c1.faces ++ [(fk, { arc := a0, geometry := cache.geometry.2 })]
                    nextFaceKey := fk + 1 }
      match connectFaceInterior c2 arcs fk with
      | .ok c3 =>
        (connectFaceExterior c3 arcs cache.incoming cache.outgoing).map fun c4 => (fk, c4)
      | .err e => .err e
      | .panic => .panic
  | .err e => .err e
  | .panic => .panic

/-- `FaceMutation::insert_face` (`face.rs`, lines 49-56): snapshot, then
apply. -/
def insertFace (c : Core) (keys : List VertexKey) (g : Int × Int) : MRes (FaceKey × Core) :=
  match FaceInsertCache.snapshot c keys g with
  | .ok cache => insertFaceWithCache c cache
  | .err e => .err e
  | .panic => .panic

/-- `FaceRemoveCache` (`face.rs`, lines 323-330). -/
structure FaceRemoveCache where
  abc : FaceKey
  arcs : List ArcKey
  deriving DecidableEq

/-- `FaceRemoveCache::snapshot` (`face.rs`, lines 337-355): the face key and
its ordered interior arc keys; `TopologyNotFound` for a missing face.  A ring
whose walk exceeds the store size would loop in the source; that is modelled
as a panic. -/
def FaceRemoveCache.snapshot (c : Core) (abc : FaceKey) : MRes FaceRemoveCache :=
  match alookup c.faces abc with
  | none => .err .topologyNotFound
  | some face =>
    match ringArcsFrom c face.arc (c.arcs.length + 1) face.arc with
    | none => .panic
    | some arcs => .ok { abc := abc, arcs := arcs }

/-- `remove_with_cache` (`face.rs`, lines 569-586): clear the interior arcs'
faces, then remove the face payload. -/
def removeWithCache (c : Core) (cache : FaceRemoveCache) : MRes (FaceP × Core) :=
  match disconnectFaceInterior c cache.arcs with
  | .ok c1 =>
    match alookup c1.faces cache.abc with
    | none => .err .topologyNotFound
    | some face => .ok (face, { c1 with faces := aerase c1.faces cache.abc })
  | .err e => .err e
  | .panic => .panic

/-- The `left`/`right` path computation of `FaceSplitCache::snapshot`
(`face.rs`, lines 400-418): windows of the cycled vertex ring, skipping while
the window's second component is not the start vertex, taking while the first
component is not the stop vertex, keeping second components.  Two copies of
the ring perimeter suffice for the infinite cycle because both vertices lie
on the ring when this runs (the distance check has already passed). -/
def splitPath (ring : List VertexKey) (src dst : VertexKey) : List VertexKey :=
  ((((perimeter ring) ++ (perimeter ring)).dropWhile fun p => p.2 != src).takeWhile
    fun p => p.1 != dst).map fun p => p.2

/-- `FaceSplitCache` (`face.rs`, lines 358-366). -/
structure FaceSplitCache where
  cache : FaceRemoveCache
  left : List VertexKey
  right : List VertexKey
  geometry : Int
  deriving DecidableEq

/-- `FaceSplitCache::snapshot` (`face.rs`, lines 372-426): bind the face,
fail with the ring distance's error if a vertex is off the ring, reject the
split with `TopologyMalformed` when the directed ring distance from `source`
to `destination` is at most 1, else record the left/right vertex paths and a
remove cache. -/
def FaceSplitCache.snapshot (c : Core) (abc : FaceKey) (source destination : VertexKey) :
    MRes FaceSplitCache :=
  match alookup c.faces abc with
  | none => .err .topologyNotFound
  | some face =>
    match ringArcsFrom c face.arc (c.arcs.length + 1) face.arc with
    | none => .panic
    | some arcs =>
      let ring := arcs.map fun ab => ab.1
      match ringDistance ring source destination with
      | .err e => .err e
      | .panic => .panic
      | .ok d =>
        if d ≤ 1 then .err .topologyMalformed
        else
          match FaceRemoveCache.snapshot c abc with
          | .ok rc =>
            .ok { cache := rc
                  left := splitPath ring source destination
                  right := splitPath ring destination source
                  geometry := face.geometry }
          | .err e => .err e
          | .panic => .panic

/-- `FacePokeCache` (`face.rs`, lines 428-435). -/
structure FacePokeCache where
  vertices : List VertexKey
  geometry : Int
  cache : FaceRemoveCache
  deriving DecidableEq

/-- `FacePokeCache::snapshot` (`face.rs`, lines 441-463): the face's vertex
ring, the payload for the new interior vertex, and a remove cache. -/
def FacePokeCache.snapshot (c : Core) (abc : FaceKey) (g : Int) : MRes FacePokeCache :=
  match alookup c.faces abc with
  | none => .err .topologyNotFound
  | some face =>
    match ringArcsFrom c face.arc (c.arcs.length + 1) face.arc with
    | none => .panic
    | some arcs =>
      match FaceRemoveCache.snapshot c abc with
      | .ok rc => .ok { vertices := arcs.map fun ab => ab.1, geometry := g, cache := rc }
      | .err e => .err e
      | .panic => .panic

/-- The face-insertion loops of the drivers: insert one face per vertex ring
in order. -/
def insertRings (c : Core) (rings : List (List VertexKey)) (g : Int × Int) : MRes Core :=
  foldMRes (fun c ring => (insertFace c ring g).map fun r => r.2) c rings

/-- `poke_with_cache` (`face.rs`, lines 614-636): remove the face, insert the
interior vertex, then insert a triangle `[a, b, c]` per consecutive pair of
the original ring; return the interior vertex key. -/
def pokeWithCache (c : Core) (cache : FacePokeCache) : MRes (VertexKey × Core) :=
  match removeWithCache c cache.cache with
  | .ok (face, c1) =>
    let vc := insertVertex c1 cache.geometry
    (insertRings vc.2 ((perimeter cache.vertices).map fun p => [p.1, p.2, vc.1])
        (0, face.geometry)).map fun c2 => (vc.1, c2)
  | .err e => .err e
  | .panic => .panic

/-- `FaceBridgeCache` (`face.rs`, lines 465-472). -/
structure FaceBridgeCache where
  source : List ArcKey
  destination : List ArcKey
  cache : FaceRemoveCache × FaceRemoveCache
  deriving DecidableEq

/-- `FaceBridgeCache::snapshot` (`face.rs`, lines 478-512): remove caches for
both faces, `ArityNonUniform` when the arities differ, else the interior arcs
of both faces.  The arity of a face and its interior arcs both come from the
same ring walk as the remove cache. -/
def FaceBridgeCache.snapshot (c : Core) (source destination : FaceKey) :
    MRes FaceBridgeCache :=
  match FaceRemoveCache.snapshot c source with
  | .ok rcs =>
    match FaceRemoveCache.snapshot c destination with
    | .ok rcd =>
      if rcs.arcs.length ≠ rcd.arcs.length then .err .arityNonUniform
      else .ok { source := rcs.arcs, destination := rcd.arcs, cache := (rcs, rcd) }
    | .err e => .err e
    | .panic => .panic
  | .err e => .err e
  | .panic => .panic

/-- Modelled from the spec: `edge::bridge` with an `ArcBridgeCache` (§4.3.7,
§4.5; `graph/mutation/edge.rs` is not part of the slice) — create the
quadrilateral face joining the two arcs, by face insertion over their
endpoint vertices. -/
def edgeBridge (c : Core) (ab cd : ArcKey) : MRes (FaceKey × Core) :=
  insertFace c [ab.1, ab.2, cd.1, cd.2] (0, 0)

/-- `bridge_with_cache` (`face.rs`, lines 638-675): remove both faces, then
bridge each source arc with the destination arcs traversed in reverse. -/
def bridgeWithCache (c : Core) (cache : FaceBridgeCache) : MRes Core :=
  match removeWithCache c cache.cache.1 with
  | .ok (_, c1) =>
    match removeWithCache c1 cache.cache.2 with
    | .ok (_, c2) =>
      foldMRes (fun c p => (edgeBridge c p.1 p.2).map fun r => r.2) c2
        (cache.source.zip cache.destination.reverse)
    | .err e => .err e
    | .panic => .panic
  | .err e => .err e
  | .panic => .panic

/-- `FaceExtrudeCache` (`face.rs`, lines 514-522). -/
structure FaceExtrudeCache where
  sources : List VertexKey
  destinations : List Int
  geometry : Int
  cache : FaceRemoveCache
  deriving DecidableEq

/-- `FaceExtrudeCache::snapshot` (`face.rs`, lines 527-564): a remove cache,
the source vertex keys, and the translated destination payloads (the source
vertex geometry with the translation applied). -/
def FaceExtrudeCache.snapshot (c : Core) (abc : FaceKey) (translation : Int) :
    MRes FaceExtrudeCache :=
  match FaceRemoveCache.snapshot c abc with
  | .ok rc =>
    match alookup c.faces abc with
    | none => .err .topologyNotFound
    | some face =>
      match ringArcsFrom c face.arc (c.arcs.length + 1) face.arc with
      | none => .panic
      | some arcs =>
        let sources := arcs.map fun ab => ab.1
        .ok { sources := sources
              destinations := sources.filterMap fun v =>
                (alookup c.vertices v).map fun p => p.geometry + translation
              geometry := face.geometry
              cache := rc }
  | .err e => .err e
  | .panic => .panic

/-- The destination-vertex insertion loop of `extrude_with_cache`. -/
def insertVertices (c : Core) : List Int → List VertexKey × Core
  | [] => ([], c)
  | g :: rest =>
    let vc := insertVertex c g
    let rc := insertVertices vc.2 rest
    (vc.1 :: rc.1, rc.2)

/-- `extrude_with_cache` (`face.rs`, lines 677-713): remove the face, insert
the translated destination vertices, insert the top face over the
destinations, then insert the side quadrilateral `[a, b, d, c]` per
consecutive pair `((a, c), (b, d))` of source/destination pairs; return the
top face key. -/
def extrudeWithCache (c : Core) (cache : FaceExtrudeCache) : MRes (FaceKey × Core) :=
  match removeWithCache c cache.cache with
  | .ok (_, c1) =>
    let dk := insertVertices c1 cache.destinations
    match insertFace dk.2 dk.1 (0, cache.geometry) with
    | .ok (ek, c2) =>
      (insertRings c2
          ((perimeter (cache.sources.zip dk.1)).map fun q => [q.1.1, q.2.1, q.2.2, q.1.2])
          (0, cache.geometry)).map fun c3 => (ek, c3)
    | .err e => .err e
    | .panic => .panic
  | .err e => .err e
  | .panic => .panic

/-! ## Auxiliary list lemmas -/

theorem perimeter_length {α : Type} (l : List α) : (perimeter l).length = l.length := by
  simp [perimeter]

theorem perimeter_get {α : Type} (l : List α) (i : Nat) (hp : i < (perimeter l).length)
    (h1 : i < l.length) (h2 : (i + 1) % l.length < l.length) :
    (perimeter l).get ⟨i, hp⟩ = (l.get ⟨i, h1⟩, l.get ⟨(i + 1) % l.length, h2⟩) := by
  simp only [perimeter, List.get_eq_getElem, List.getElem_zip, List.getElem_rotate]

theorem findSome?_eq_of_all {α β : Type} [DecidableEq β] (f : α → Option β) (l : List α)
    (v : β) (x : α) (hx : x ∈ l) (hxv : f x = some v)
    (hall : ∀ y e, f y = some e → e = v) : l.findSome? f = some v := by
  have hs : (l.findSome? f).isSome := by
    rw [List.findSome?_isSome_iff]
    exact ⟨x, hx, by rw [hxv]; rfl⟩
  rcases ho : l.findSome? f with _ | e
  · rw [ho] at hs
    simp at hs
  · obtain ⟨y, hy, hfy⟩ := List.exists_of_findSome?_eq_some ho
    rw [hall y e hfy]

/-! ## Demo cores for concrete instances -/

/-- A core with two vertices (payload 0), built through `insertVertex`. -/
def pairCore : Core := (insertVertex (insertVertex {} 0).2 0).2

/-- A core with three vertices with payloads 10, 20, 30. -/
def threeVertexCore : Core :=
  (insertVertex (insertVertex (insertVertex {} 10).2 20).2 30).2

/-- A consistent one-triangle core built by the model's own face insertion:
interior ring `(0,1) → (1,2) → (2,0)`, boundary loop
`(1,0) → (0,2) → (2,1)`. -/
def triDemo : Core :=
  match insertFace threeVertexCore [0, 1, 2] (0, 5) with
  | .ok r => r.2
  | _ => {}

/-- A raw core for the ring-bisection check: arc `(0, 1)` exists and its
`next` arc `(1, 0)` is live with destination `0`. -/
def bisectDemoCore : Core :=
  { vertices := [(0, {}), (1, {}), (2, {})]
    arcs := [((0, 1), { next := some (1, 0) }), ((1, 0), {})]
    nextVertexKey := 3 }

/-- A mid-operation arc store for the exterior-repair hyperproperty: the
opposite arc `(2, 1)` of the new interior arc `(1, 2)` is a boundary arc, and
vertex 1 has the two outgoing arcs `(1, 5)` and `(1, 6)`. -/
def exteriorDemoCore : Core :=
  { arcs := [((2, 1), {}), ((1, 5), {}), ((1, 6), {}), ((7, 2), {})] }

/-- `exteriorDemoCore` after the interior-linking write
`connect_arc_to_face((1, 5), 9)`. -/
def exteriorDemoCore2 : Core :=
  { arcs := [((2, 1), {}), ((1, 5), { face := some 9 }), ((1, 6), {}), ((7, 2), {})] }

/-- The snapshot-captured outgoing candidate sets for `exteriorDemoCore`. -/
def exteriorDemoOutgoing : List (VertexKey × List ArcKey) := [(1, [(1, 5), (1, 6)])]

/-- The snapshot-captured incoming candidate sets for `exteriorDemoCore`. -/
def exteriorDemoIncoming : List (VertexKey × List ArcKey) := [(2, [(7, 2)])]

/-! ## C5: duplicate vertex keys -/

/-- **C5**: for every input vertex-key sequence containing a duplicate key,
`FaceInsertCache::snapshot` — and hence `insert_face` — fails with
`TopologyMalformed`.  The snapshot reads the core immutably and the driver
propagates the error before performing any write, so no vertex, arc, edge or
face is created: in the embedding the error result carries no successor
state, and the input core is untouched. -/
theorem insert_face_duplicate_keys_rejected (c : Core) (keys : List VertexKey)
    (g : Int × Int) (h : ¬ keys.Nodup) :
    FaceInsertCache.snapshot c keys g = .err .topologyMalformed ∧
    insertFace c keys g = .err .topologyMalformed := by
  have hlen : keys.dedup.length ≠ keys.length := by
    intro hl
    have he : keys.dedup = keys := (List.dedup_sublist keys).eq_of_length hl
    exact h (he ▸ List.nodup_dedup keys)
  have hsnap : FaceInsertCache.snapshot c keys g = .err .topologyMalformed := by
    unfold FaceInsertCache.snapshot
    rw [if_pos hlen]
  refine ⟨hsnap, ?_⟩
  unfold insertFace
  rw [hsnap]

/-- Concrete instantiation of `insert_face_duplicate_keys_rejected` on
`[v, v, w]` (scenario 5 of §8). -/
theorem insert_face_duplicate_keys_rejected_witness :
    FaceInsertCache.snapshot pairCore [0, 0, 1] (0, 0) = .err .topologyMalformed ∧
    insertFace pairCore [0, 0, 1] (0, 0) = .err .topologyMalformed :=
  insert_face_duplicate_keys_rejected pairCore [0, 0, 1] (0, 0) (by decide)

/-! ## C2: no arity validation in face insertion -/

/-- **C2** (evidence for the code bug): `FaceInsertCache::snapshot` performs
no arity check at all.  On a core with the two distinct vertices 0 and 1, the
snapshot accepts the ring `[0, 1]` and the full insertion succeeds, producing
a degenerate two-gon; the empty ring also passes the snapshot and the driver
then panics at the `arcs[0]` indexing of `insert_face_with_cache`.  No
`ArityInvariant` error is produced on any of these paths, contradicting the
specification (§4.3.1 `n ≥ 3`, §7 `ArityInvariant`). -/
theorem insert_face_no_arity_validation :
    (FaceInsertCache.snapshot pairCore [0, 1] (0, 0)).isOk = true ∧
    (insertFace pairCore [0, 1] (0, 0)).isOk = true ∧
    (FaceInsertCache.snapshot pairCore ([] : List VertexKey) (0, 0)).isOk = true ∧
    insertFace pairCore ([] : List VertexKey) (0, 0) = .panic := by
  refine ⟨rfl, rfl, rfl, rfl⟩

/-! ## C3: the degenerate-split check is directional -/

/-- **C3 counterexample**: on the triangle `triDemo` with ring `0 → 1 → 2`,
the vertices 0 and 2 are adjacent on the ring — the ring arc `(2, 0)` joins
them — yet `FaceSplitCache::snapshot` accepts
`(source, destination) = (0, 2)` (directed distance 2), refuting "rejects
every pair of adjacent vertices regardless of direction". -/
theorem face_split_reverse_adjacency_accepted :
    ringArcs triDemo 0 = some [(0, 1), (1, 2), (2, 0)] ∧
    (FaceSplitCache.snapshot triDemo 0 0 2).isOk = true := by
  refine ⟨rfl, rfl⟩

/-- **C3 amended**: `FaceSplitCache::snapshot` fails with `TopologyMalformed`
precisely when the *directed* ring distance from `source` to `destination`
(hops along `next`, per the captured ring) is at most 1 — the destination
equals the source or immediately follows it.  A pair adjacent only in the
opposite direction has directed distance `arity - 1` and is accepted. -/
theorem face_split_snapshot_directed_distance (c : Core) (f : FaceKey) (src dst : VertexKey)
    (face : FaceP) (hface : alookup c.faces f = some face)
    (arcs : List ArcKey)
    (hring : ringArcsFrom c face.arc (c.arcs.length + 1) face.arc = some arcs)
    (i j : Nat)
    (hi : (arcs.map fun ab => ab.1).findIdx? (fun v => v = src) = some i)
    (hj : (arcs.map fun ab => ab.1).findIdx? (fun v => v = dst) = some j) :
    FaceSplitCache.snapshot c f src dst = .err .topologyMalformed ↔
      (j + arcs.length - i) % arcs.length ≤ 1 := by
  have hlen : (arcs.map fun ab => ab.1).length = arcs.length := List.length_map _ _
  simp only [FaceSplitCache.snapshot, hface, hring, ringDistance, hi, hj, hlen,
    FaceRemoveCache.snapshot]
  by_cases hle : (j + arcs.length - i) % arcs.length ≤ 1
  · rw [if_pos hle]
    simp [hle]
  · rw [if_neg hle]
    simp [hle]

/-- Concrete instantiation of `face_split_snapshot_directed_distance`: on
`triDemo`, the directed-adjacent pair `(0, 1)` is rejected. -/
theorem face_split_snapshot_directed_distance_witness :
    FaceSplitCache.snapshot triDemo 0 0 1 = .err .topologyMalformed :=
  (face_split_snapshot_directed_distance triDemo 0 0 1 { arc := (0, 1), geometry := 5 } rfl
    [(0, 1), (1, 2), (2, 0)] rfl 0 1 rfl rfl).mpr (by decide)

/-! ## C1: the exterior-repair choice reads mid-operation state -/

/-- **C1 counterexample**: two mid-operation states with identical
snapshot-captured candidate sets, differing only by one interior-linking
write (`connect_arc_to_face` on the arc `(1, 5)`), on which
`connect_face_exterior`'s choice for the interior arc `(1, 2)` differs:
`ax = (1, 5)` in the first state and `ax = (1, 6)` in the second.  The
boundary-arc filter is evaluated against the current core, so the decision is
not a function of the snapshot alone. -/
theorem exterior_choice_depends_on_current_state :
    connectArcToFace exteriorDemoCore (1, 5) 9 = .ok exteriorDemoCore2 ∧
    exteriorNeighbors exteriorDemoCore exteriorDemoIncoming exteriorDemoOutgoing (1, 2) =
      .ok (some ((1, 5), (7, 2))) ∧
    exteriorNeighbors exteriorDemoCore2 exteriorDemoIncoming exteriorDemoOutgoing (1, 2) =
      .ok (some ((1, 6), (7, 2))) := by
  refine ⟨rfl, rfl, rfl⟩

theorem firstBoundaryArc_mem (c : Core) (cand : List ArcKey) (k : ArcKey)
    (h : firstBoundaryArc c cand = some k) : k ∈ cand := by
  unfold firstBoundaryArc at h
  rw [Option.map_eq_some'] at h
  obtain ⟨ka, hfind, hk⟩ := h
  have hmem := List.mem_of_find?_eq_some hfind
  rw [List.mem_filterMap] at hmem
  obtain ⟨a, ha, hmap⟩ := hmem
  rw [Option.map_eq_some'] at hmap
  obtain ⟨p, _, hp⟩ := hmap
  rw [← hk, ← hp]
  exact ha

/-- **C1 amended**: the splice neighbors are *drawn from* the
snapshot-captured candidate sets: whenever `connect_face_exterior` settles on
`(ax, xb)` for the interior arc `ab`, `ax` is a member of the captured
outgoing set of `a` or is the documented fallback (the opposite of `ab`'s
previous arc in the current core), and symmetrically `xb` comes from the
captured incoming set of `b` or the opposite of `ab`'s next arc.  The
boundary-arc filter and the fallbacks, however, read the current
mid-operation core, so the selection among those candidates can change with
intermediate writes (see the counterexample). -/
theorem exterior_neighbors_candidates_from_snapshot (c : Core)
    (incoming outgoing : List (VertexKey × List ArcKey)) (ab ax xb : ArcKey)
    (h : exteriorNeighbors c incoming outgoing ab = .ok (some (ax, xb))) :
    ((∃ outs, alookup outgoing ab.1 = some outs ∧ ax ∈ outs) ∨
      fallbackFromPrevious c ab = some ax) ∧
    ((∃ ins, alookup incoming ab.2 = some ins ∧ xb ∈ ins) ∨
      fallbackFromNext c ab = some xb) := by
  simp only [exteriorNeighbors] at h
  split at h
  · exact absurd h (by simp)
  split at h
  · exact absurd h (by simp)
  split at h
  case _ outs ins hout hin =>
    split at h
    case _ x y hax hxb =>
      simp only [MRes.ok.injEq, Option.some.injEq, Prod.mk.injEq] at h
      obtain ⟨rfl, rfl⟩ := h
      constructor
      · rcases hfb : firstBoundaryArc c outs with _ | v
        · rw [hfb] at hax
          right
          simpa [Option.orElse] using hax
        · rw [hfb] at hax
          left
          have hv : v = x := by simpa [Option.orElse] using hax
          exact ⟨outs, hout, hv ▸ firstBoundaryArc_mem c outs v hfb⟩
      · rcases hfb : firstBoundaryArc c ins with _ | v
        · rw [hfb] at hxb
          right
          simpa [Option.orElse] using hxb
        · rw [hfb] at hxb
          left
          have hv : v = y := by simpa [Option.orElse] using hxb
          exact ⟨ins, hin, hv ▸ firstBoundaryArc_mem c ins v hfb⟩
    case _ =>
      exact absurd h (by simp)
  case _ =>
    exact absurd h (by simp)

/-- Concrete instantiation of `exterior_neighbors_candidates_from_snapshot`
on `exteriorDemoCore`. -/
theorem exterior_neighbors_candidates_from_snapshot_witness :
    ((∃ outs, alookup exteriorDemoOutgoing 1 = some outs ∧ (1, 5) ∈ outs) ∨
      fallbackFromPrevious exteriorDemoCore (1, 2) = some (1, 5)) ∧
    ((∃ ins, alookup exteriorDemoIncoming 2 = some ins ∧ (7, 2) ∈ ins) ∨
      fallbackFromNext exteriorDemoCore (1, 2) = some (7, 2)) :=
  exterior_neighbors_candidates_from_snapshot exteriorDemoCore exteriorDemoIncoming
    exteriorDemoOutgoing (1, 2) (1, 5) (7, 2) rfl

/-! ## C4: ring bisection is rejected -/

theorem occupiedOrBisectCheck_conflict (c : Core) (keys : List VertexKey)
    (x : Option ArcP × Option ArcP) (e : GraphError)
    (h : occupiedOrBisectCheck c keys x = some e) : e = .topologyConflict := by
  simp only [occupiedOrBisectCheck] at h
  split at h
  · exact absurd h (by simp)
  split at h
  · exact (Option.some_inj.mp h).symm
  split at h
  · split at h
    · split at h
      · split at h
        · exact (Option.some_inj.mp h).symm
        · exact absurd h (by simp)
      · exact absurd h (by simp)
    · exact absurd h (by simp)
  · exact absurd h (by simp)

/-- **C4**: during `FaceInsertCache::snapshot` with pairwise-distinct,
existing vertex keys, if for some consecutive pair the arc `(vᵢ, vᵢ₊₁)`
exists while the arc `(vᵢ₊₁, vᵢ₊₂)` does not, and the existing arc's `next`
arc is live with a destination inside the proposed vertex set, then the
snapshot fails with `TopologyConflict`.  The snapshot reads the core
immutably, so the core is unchanged by construction. -/
theorem face_insert_bisecting_ring_rejected (c : Core) (keys : List VertexKey) (g : Int × Int)
    (hnd : keys.Nodup)
    (hex : ∀ k ∈ keys, (alookup c.vertices k).isSome = true)
    (i : Nat) (hip : i < (perimeter keys).length)
    (hip2 : (i + 1) % keys.length < (perimeter keys).length)
    (arc : ArcP)
    (hprev : alookup c.arcs ((perimeter keys).get ⟨i, hip⟩) = some arc)
    (hnextmissing : alookup c.arcs ((perimeter keys).get ⟨(i + 1) % keys.length, hip2⟩) = none)
    (nk : ArcKey) (hnk : arc.next = some nk)
    (hnklive : (alookup c.arcs nk).isSome = true)
    (hdst : nk.2 ∈ keys) :
    FaceInsertCache.snapshot c keys g = .err .topologyConflict := by
  have hlen : keys.dedup.length = keys.length :=
    congrArg List.length (List.dedup_eq_self.mpr hnd)
  have hexlen : (keys.filter fun k => (alookup c.vertices k).isSome).length = keys.length :=
    List.filter_length_eq_length.mpr hex
  unfold FaceInsertCache.snapshot
  rw [if_neg (not_not_intro hlen), if_neg (not_not_intro hexlen)]
  have hkpos : 0 < keys.length := by
    rw [perimeter_length] at hip
    omega
  -- the i-th pair of the checked sequence
  have hmlen : ((perimeter keys).map fun ab => alookup c.arcs ab).length = keys.length := by
    rw [List.length_map, perimeter_length]
  have hplen : (perimeter ((perimeter keys).map fun ab => alookup c.arcs ab)).length =
      keys.length := by
    rw [perimeter_length, hmlen]
  have hip3 : i < (perimeter ((perimeter keys).map fun ab => alookup c.arcs ab)).length := by
    rw [hplen]
    rw [perimeter_length] at hip
    exact hip
  have him : i < ((perimeter keys).map fun ab => alookup c.arcs ab).length := by
    rw [hmlen]
    rw [perimeter_length] at hip
    exact hip
  have him2 : (i + 1) % ((perimeter keys).map fun ab => alookup c.arcs ab).length <
      ((perimeter keys).map fun ab => alookup c.arcs ab).length := by
    rw [hmlen]
    exact Nat.mod_lt _ hkpos
  have hpair := perimeter_get ((perimeter keys).map fun ab => alookup c.arcs ab) i hip3 him him2
  have hfst : ((perimeter keys).map fun ab => alookup c.arcs ab).get ⟨i, him⟩ = some arc := by
    rw [List.get_eq_getElem, List.getElem_map]
    rw [List.get_eq_getElem] at hprev
    exact hprev
  have hsnd : ((perimeter keys).map fun ab => alookup c.arcs ab).get
      ⟨(i + 1) % ((perimeter keys).map fun ab => alookup c.arcs ab).length, him2⟩ = none := by
    rw [List.get_eq_getElem, List.getElem_map]
    rw [List.get_eq_getElem] at hnextmissing
    have : (i + 1) % ((perimeter keys).map fun ab => alookup c.arcs ab).length =
        (i + 1) % keys.length := by rw [hmlen]
    simp only [this]
    exact hnextmissing
  have hcheck : occupiedOrBisectCheck c keys
      ((perimeter ((perimeter keys).map fun ab => alookup c.arcs ab)).get ⟨i, hip3⟩) =
      some .topologyConflict := by
    rw [hpair, hfst, hsnd]
    rcases hlk : alookup c.arcs nk with _ | a
    · rw [hlk] at hnklive
      exact absurd hnklive (by simp)
    · rcases hfc : arc.face with _ | fc
      · simp [occupiedOrBisectCheck, hfc, hnk, hlk, hdst]
      · simp [occupiedOrBisectCheck, hfc]
  have hfind : (perimeter ((perimeter keys).map fun ab => alookup c.arcs ab)).findSome?
      (occupiedOrBisectCheck c keys) = some .topologyConflict := by
    refine findSome?_eq_of_all _ _ _ _ (List.get_mem _ i hip3) hcheck ?_
    intro y e he
    exact occupiedOrBisectCheck_conflict c keys y e he
  simp only [hfind]

/-- Concrete instantiation of `face_insert_bisecting_ring_rejected` on
`bisectDemoCore` with the ring `[0, 1, 2]` (scenario 6 of §8). -/
theorem face_insert_bisecting_ring_rejected_witness :
    FaceInsertCache.snapshot bisectDemoCore [0, 1, 2] (0, 0) = .err .topologyConflict :=
  face_insert_bisecting_ring_rejected bisectDemoCore [0, 1, 2] (0, 0) (by decide)
    (by decide) 0 (by decide) (by decide) { next := some (1, 0) } rfl rfl (1, 0) rfl rfl
    (by decide)

/-! ## Store lemmas -/

theorem alookup_append {K V : Type} [DecidableEq K] (l1 l2 : List (K × V)) (k : K) :
    alookup (l1 ++ l2) k =
      match alookup l1 k with
      | some v => some v
      | none => alookup l2 k := by
  induction l1 with
  | nil => simp [alookup]
  | cons e rest ih =>
    by_cases he : e.1 = k
    · simp [alookup, he]
    · simp [alookup, he, ih]

theorem alookup_aupdate_self {K V : Type} [DecidableEq K] (l : List (K × V)) (k : K)
    (f : V → V) : alookup (aupdate l k f) k = (alookup l k).map f := by
  induction l with
  | nil => simp [alookup, aupdate]
  | cons e rest ih =>
    by_cases he : e.1 = k
    · simp [alookup, aupdate, he]
    · simp [alookup, aupdate, he, ih]

theorem alookup_aupdate_ne {K V : Type} [DecidableEq K] (l : List (K × V)) (k k2 : K)
    (f : V → V) (h : k2 ≠ k) : alookup (aupdate l k f) k2 = alookup l k2 := by
  induction l with
  | nil => simp [alookup, aupdate]
  | cons e rest ih =>
    by_cases he : e.1 = k
    · have hne : e.1 ≠ k2 := fun hh => h (by rw [← hh, he])
      simp [alookup, aupdate, he, hne, ih, Ne.symm h]
    · by_cases he2 : e.1 = k2
      · simp [alookup, aupdate, he, he2, h]
      · simp [alookup, aupdate, he, he2, ih]

theorem alookup_aerase_self {K V : Type} [DecidableEq K] (l : List (K × V)) (k : K) :
    alookup (aerase l k) k = none := by
  induction l with
  | nil => simp [alookup, aerase]
  | cons e rest ih =>
    by_cases he : e.1 = k
    · simpa [aerase, he] using ih
    · simpa [aerase, alookup, he] using ih

theorem alookup_aerase_ne {K V : Type} [DecidableEq K] (l : List (K × V)) (k k2 : K)
    (h : k2 ≠ k) : alookup (aerase l k) k2 = alookup l k2 := by
  induction l with
  | nil => simp [alookup, aerase]
  | cons e rest ih =>
    by_cases he : e.1 = k
    · have hne : e.1 ≠ k2 := fun hh => h (by rw [← hh, he])
      simp [aerase, alookup, he, hne, ih, Ne.symm h]
    · by_cases he2 : e.1 = k2
      · simp [aerase, alookup, he, he2, h]
      · simp [aerase, alookup, he, he2, ih]

theorem length_aupdate {K V : Type} [DecidableEq K] (l : List (K × V)) (k : K) (f : V → V) :
    (aupdate l k f).length = l.length := by
  induction l with
  | nil => rfl
  | cons e rest ih => simp [aupdate, ih]

theorem alookup_isSome_iff_mem {K V : Type} [DecidableEq K] (l : List (K × V)) (k : K) :
    (alookup l k).isSome = true ↔ k ∈ l.map fun e => e.1 := by
  induction l with
  | nil => simp [alookup]
  | cons e rest ih =>
    by_cases he : e.1 = k
    · simp [alookup, he]
    · simp only [alookup, he, if_false, List.map_cons, List.mem_cons, ih]
      constructor
      · exact fun h => Or.inr h
      · rintro (h | h)
        · exact absurd h.symm he
        · exact h

theorem aerase_of_not_mem {K V : Type} [DecidableEq K] (l : List (K × V)) (k : K)
    (h : k ∉ l.map fun e => e.1) : aerase l k = l := by
  induction l with
  | nil => rfl
  | cons e rest ih =>
    simp only [List.map_cons, List.mem_cons, not_or] at h
    have he : e.1 ≠ k := fun hh => h.1 hh.symm
    simp [aerase, he, ih h.2]

theorem length_aerase {K V : Type} [DecidableEq K] (l : List (K × V)) (k : K)
    (hnd : (l.map fun e => e.1).Nodup) (hmem : (alookup l k).isSome = true) :
    (aerase l k).length = l.length - 1 := by
  induction l with
  | nil => simp [alookup] at hmem
  | cons e rest ih =>
    simp only [List.map_cons, List.nodup_cons] at hnd
    by_cases he : e.1 = k
    · have hrest : aerase rest k = rest := aerase_of_not_mem rest k (he ▸ hnd.1)
      simp [aerase, he, hrest]
    · have hmem2 : (alookup rest k).isSome = true := by
        simpa [alookup, he] using hmem
      have hlen : 0 < rest.length := by
        rcases rest with _ | _
        · simp [alookup] at hmem2
        · simp
      simp only [aerase, he, if_false, List.length_cons, ih hnd.2 hmem2]
      omega

/-! ## Well-formedness of a core -/

/-- Invariants the mutation layers maintain: looked-up keys lie below the
allocation counters, arc face references lie below the face counter, and the
face store has no duplicate keys. -/
structure Core.WF (c : Core) : Prop where
  vertexKeyLt : ∀ k : Nat, (alookup c.vertices k).isSome = true → k < c.nextVertexKey
  faceKeyLt : ∀ k : Nat, (alookup c.faces k).isSome = true → k < c.nextFaceKey
  arcFaceLt : ∀ (k : ArcKey) (f : Nat), arcFace c k = some f → f < c.nextFaceKey
  facesNodup : (c.faces.map fun e => e.1).Nodup

/-! ## Effect lemmas for the atomic mutation steps -/

theorem bindFace_aupdate_preserving (l : List (ArcKey × ArcP)) (k2 : ArcKey)
    (f : ArcP → ArcP) (hf : ∀ a, (f a).face = a.face) (k : ArcKey) :
    ((alookup (aupdate l k2 f) k).bind fun a => a.face) =
      (alookup l k).bind fun a => a.face := by
  by_cases hk : k = k2
  · subst hk
    rw [alookup_aupdate_self]
    cases alookup l k <;> simp [hf]
  · rw [alookup_aupdate_ne _ _ _ _ hk]

/-- Frame facts common to the arc-link writes: vertex and face stores and the
vertex/face counters are untouched, and every arc's `face` reference is
preserved. -/
def FrameP (c c2 : Core) : Prop :=
  c2.vertices = c.vertices ∧ c2.faces = c.faces ∧ c2.nextVertexKey = c.nextVertexKey ∧
    c2.nextFaceKey = c.nextFaceKey ∧ ∀ k, arcFace c2 k = arcFace c k

theorem FrameP.refl (c : Core) : FrameP c c :=
  ⟨rfl, rfl, rfl, rfl, fun _ => rfl⟩

theorem FrameP.trans {a b c : Core} (h1 : FrameP a b) (h2 : FrameP b c) : FrameP a c :=
  ⟨h2.1.trans h1.1, h2.2.1.trans h1.2.1, h2.2.2.1.trans h1.2.2.1,
    h2.2.2.2.1.trans h1.2.2.2.1, fun k => (h2.2.2.2.2 k).trans (h1.2.2.2.2 k)⟩

theorem connectNeighboringArcs_frame (c : Core) (ab bc : ArcKey) (c2 : Core)
    (h : connectNeighboringArcs c ab bc = .ok c2) : FrameP c c2 := by
  unfold connectNeighboringArcs at h
  split at h
  · simp only [MRes.ok.injEq] at h
    subst h
    refine ⟨rfl, rfl, rfl, rfl, fun k => ?_⟩
    simp only [arcFace]
    have h1 := bindFace_aupdate_preserving
      (aupdate c.arcs ab fun a => { a with next := some bc }) bc
      (fun a => { a with previous := some ab }) (fun a => rfl) k
    have h2 := bindFace_aupdate_preserving c.arcs ab
      (fun a => { a with next := some bc }) (fun a => rfl) k
    exact h1.trans h2
  · simp at h

theorem connectArcToFace_effect (c : Core) (ab : ArcKey) (f : FaceKey) (c2 : Core)
    (h : connectArcToFace c ab f = .ok c2) :
    c2.vertices = c.vertices ∧ c2.faces = c.faces ∧ c2.nextVertexKey = c.nextVertexKey ∧
      c2.nextFaceKey = c.nextFaceKey ∧
      ∀ k, arcFace c2 k = if k = ab then some f else arcFace c k := by
  unfold connectArcToFace at h
  split at h
  case isTrue hsome =>
    simp only [MRes.ok.injEq] at h
    subst h
    refine ⟨rfl, rfl, rfl, rfl, fun k => ?_⟩
    by_cases hk : k = ab
    · subst hk
      rw [if_pos rfl]
      simp only [arcFace]
      rw [alookup_aupdate_self]
      rcases ha : alookup c.arcs k with _ | a
      · rw [ha] at hsome
        simp at hsome
      · simp
    · rw [if_neg hk]
      simp only [arcFace]
      rw [alookup_aupdate_ne _ _ _ _ hk]
  · simp at h

theorem disconnectArcFromFace_effect (c : Core) (ab : ArcKey) (c2 : Core)
    (h : disconnectArcFromFace c ab = .ok c2) :
    c2.vertices = c.vertices ∧ c2.faces = c.faces ∧ c2.nextVertexKey = c.nextVertexKey ∧
      c2.nextFaceKey = c.nextFaceKey ∧
      ∀ k, arcFace c2 k = if k = ab then none else arcFace c k := by
  unfold disconnectArcFromFace at h
  split at h
  · simp only [MRes.ok.injEq] at h
    subst h
    refine ⟨rfl, rfl, rfl, rfl, fun k => ?_⟩
    by_cases hk : k = ab
    · subst hk
      rw [if_pos rfl]
      simp only [arcFace]
      rw [alookup_aupdate_self]
      cases alookup c.arcs k <;> simp
    · rw [if_neg hk]
      simp only [arcFace]
      rw [alookup_aupdate_ne _ _ _ _ hk]
  · simp at h

theorem getOrInsertEdge_effect (c : Core) (ab : ArcKey) (g : Int) (e : EdgeKey)
    (ab2 ba2 : ArcKey) (c2 : Core)
    (h : getOrInsertEdge c ab g = .ok (e, (ab2, ba2), c2)) :
    ab2 = ab ∧ c2.vertices = c.vertices ∧ c2.faces = c.faces ∧
      c2.nextVertexKey = c.nextVertexKey ∧ c2.nextFaceKey = c.nextFaceKey ∧
      (∀ k, arcFace c2 k = arcFace c k) ∧
      (∀ k, (alookup c.arcs k).isSome = true → alookup c2.arcs k = alookup c.arcs k) := by
  unfold getOrInsertEdge at h
  split at h
  · simp at h
  split at h
  · simp only [MRes.ok.injEq, Prod.mk.injEq] at h
    obtain ⟨_, ⟨hab, _⟩, hc⟩ := h
    subst hc
    exact ⟨hab.symm, rfl, rfl, rfl, rfl, fun _ => rfl, fun _ _ => rfl⟩
  case _ hnone =>
    simp only [MRes.ok.injEq, Prod.mk.injEq] at h
    obtain ⟨_, ⟨hab, _⟩, hc⟩ := h
    subst hc
    refine ⟨hab.symm, rfl, rfl, rfl, rfl, fun k => ?_, fun k hk => ?_⟩
    · simp only [arcFace]
      rw [alookup_append]
      rcases hck : alookup c.arcs k with _ | a
      · simp only [hck]
        simp only [alookup]
        split_ifs <;> simp
      · simp [hck]
    · show alookup (c.arcs ++ _) k = alookup c.arcs k
      rw [alookup_append]
      rcases hck : alookup c.arcs k with _ | a
      · rw [hck] at hk
        simp at hk
      · simp [hck]

theorem foldMRes_ok_rel {α : Type} (f : Core → α → MRes Core) (R : Core → Core → Prop)
    (hrefl : ∀ c, R c c) (htrans : ∀ a b c, R a b → R b c → R a c)
    (hstep : ∀ c x c2, f c x = .ok c2 → R c c2) :
    ∀ (xs : List α) (c c2 : Core), foldMRes f c xs = .ok c2 → R c c2 := by
  intro xs
  induction xs with
  | nil =>
    intro c c2 h
    unfold foldMRes at h
    simp only [MRes.ok.injEq] at h
    subst h
    exact hrefl c
  | cons x xs ih =>
    intro c c2 h
    unfold foldMRes at h
    split at h
    case _ c1 heq => exact htrans _ _ _ (hstep c x c1 heq) (ih c1 c2 h)
    · simp at h
    · simp at h

theorem connectFaceExterior_frame (c : Core) (arcs : List ArcKey)
    (incoming outgoing : List (VertexKey × List ArcKey)) (c2 : Core)
    (h : connectFaceExterior c arcs incoming outgoing = .ok c2) : FrameP c c2 := by
  refine foldMRes_ok_rel _ FrameP FrameP.refl (fun _ _ _ => FrameP.trans) ?_ arcs c c2 h
  intro cx ab cy hstep
  split at hstep
  · simp only [MRes.ok.injEq] at hstep
    subst hstep
    exact FrameP.refl cx
  case _ ax xb _ =>
    rcases hc1 : connectNeighboringArcs cx ab.opposite ax with cz | e1 | _ <;>
      rw [hc1] at hstep <;> simp only [MRes.bind] at hstep
    · exact FrameP.trans (connectNeighboringArcs_frame _ _ _ _ hc1)
        (connectNeighboringArcs_frame _ _ _ _ hstep)
    · simp at hstep
    · simp at hstep
  · simp at hstep
  · simp at hstep

theorem collectArcs_effect (g : Int) :
    ∀ (ps : List ArcKey) (c : Core) (arcs : List ArcKey) (c2 : Core),
      collectArcs g c ps = .ok (arcs, c2) → arcs = ps ∧ FrameP c c2 := by
  intro ps
  induction ps with
  | nil =>
    intro c arcs c2 h
    unfold collectArcs at h
    simp only [MRes.ok.injEq, Prod.mk.injEq] at h
    obtain ⟨h1, h2⟩ := h
    subst h2
    exact ⟨h1.symm, FrameP.refl c⟩
  | cons p rest ih =>
    intro c arcs c2 h
    unfold collectArcs at h
    split at h
    case _ e abba c1 heq =>
      obtain ⟨ek, ⟨ab, ba⟩, c1⟩ := (e, abba, c1)
      split at h
      case _ arcs1 c21 heq2 =>
        simp only [MRes.ok.injEq, Prod.mk.injEq] at h
        obtain ⟨h1, h2⟩ := h
        subst h2
        obtain ⟨hrest, hframe⟩ := ih _ _ _ heq2
        obtain ⟨hab, hv, hf, hnv, hnf, haf, _⟩ := getOrInsertEdge_effect _ _ _ _ _ _ _ heq
        subst hrest
        refine ⟨by rw [← h1, hab], FrameP.trans ⟨hv, hf, hnv, hnf, haf⟩ hframe⟩
      · simp at h
      · simp at h
    · simp at h
    · simp at h

theorem interiorFold_effect (fk : FaceKey) :
    ∀ (pairs : List (ArcKey × ArcKey)) (c c2 : Core),
      foldMRes (fun c p =>
          (connectNeighboringArcs c p.1 p.2).bind fun c1 => connectArcToFace c1 p.1 fk)
        c pairs = .ok c2 →
      c2.vertices = c.vertices ∧ c2.faces = c.faces ∧ c2.nextVertexKey = c.nextVertexKey ∧
        c2.nextFaceKey = c.nextFaceKey ∧
        ∀ k, arcFace c2 k =
          if k ∈ pairs.map (fun p => p.1) then some fk else arcFace c k := by
  intro pairs
  induction pairs with
  | nil =>
    intro c c2 h
    unfold foldMRes at h
    simp only [MRes.ok.injEq] at h
    subst h
    exact ⟨rfl, rfl, rfl, rfl, fun k => by simp⟩
  | cons p rest ih =>
    intro c c2 h
    unfold foldMRes at h
    split at h
    case _ c1 heq =>
      rcases hc1 : connectNeighboringArcs c p.1 p.2 with ca | e1 | _ <;>
        rw [hc1] at heq <;> simp only [MRes.bind] at heq
      · obtain ⟨hv1, hf1, hnv1, hnf1, haf1⟩ := connectNeighboringArcs_frame _ _ _ _ hc1
        obtain ⟨hv2, hf2, hnv2, hnf2, haf2⟩ := connectArcToFace_effect _ _ _ _ heq
        obtain ⟨hv3, hf3, hnv3, hnf3, haf3⟩ := ih _ _ h
        refine ⟨by rw [hv3, hv2, hv1], by rw [hf3, hf2, hf1], by rw [hnv3, hnv2, hnv1],
          by rw [hnf3, hnf2, hnf1], fun k => ?_⟩
        rw [haf3 k]
        by_cases hmem : k ∈ rest.map fun p => p.1
        · rw [if_pos hmem, if_pos (by simp only [List.map_cons, List.mem_cons]; exact Or.inr hmem)]
        · rw [if_neg hmem, haf2 k]
          by_cases hk : k = p.1
          · rw [if_pos hk, if_pos (by simp only [List.map_cons, List.mem_cons]; exact Or.inl hk)]
          · rw [if_neg hk, haf1 k,
              if_neg (by simp only [List.map_cons, List.mem_cons]; rintro (h1 | h2)
                          <;> [exact hk h1; exact hmem h2])]
      · simp at heq
      · simp at heq
    · simp at h
    · simp at h

theorem disconnectFold_effect :
    ∀ (arcs : List ArcKey) (c c2 : Core),
      disconnectFaceInterior c arcs = .ok c2 →
      c2.vertices = c.vertices ∧ c2.faces = c.faces ∧ c2.nextVertexKey = c.nextVertexKey ∧
        c2.nextFaceKey = c.nextFaceKey ∧
        ∀ k, arcFace c2 k = if k ∈ arcs then none else arcFace c k := by
  intro arcs
  induction arcs with
  | nil =>
    intro c c2 h
    unfold disconnectFaceInterior foldMRes at h
    simp only [MRes.ok.injEq] at h
    subst h
    exact ⟨rfl, rfl, rfl, rfl, fun k => by simp⟩
  | cons a rest ih =>
    intro c c2 h
    unfold disconnectFaceInterior foldMRes at h
    split at h
    case _ c1 heq =>
      obtain ⟨hv1, hf1, hnv1, hnf1, haf1⟩ := disconnectArcFromFace_effect _ _ _ heq
      obtain ⟨hv2, hf2, hnv2, hnf2, haf2⟩ := ih _ _ h
      refine ⟨by rw [hv2, hv1], by rw [hf2, hf1], by rw [hnv2, hnv1],
        by rw [hnf2, hnf1], fun k => ?_⟩
      rw [haf2 k]
      by_cases hmem : k ∈ rest
      · rw [if_pos hmem, if_pos (List.mem_cons.mpr (Or.inr hmem))]
      · rw [if_neg hmem, haf1 k]
        by_cases hk : k = a
        · rw [if_pos hk, if_pos (List.mem_cons.mpr (Or.inl hk))]
        · rw [if_neg hk, if_neg (by simp [List.mem_cons, hk, hmem])]
    · simp at h
    · simp at h

theorem perimeter_map_fst {α : Type} (l : List α) :
    (perimeter l).map (fun p => p.1) = l := by
  simp only [perimeter]
  exact List.map_fst_zip _ _ (by rw [List.length_rotate])

theorem aerase_sublist {K V : Type} [DecidableEq K] (l : List (K × V)) (k : K) :
    (aerase l k).Sublist l := by
  induction l with
  | nil => simp [aerase]
  | cons e rest ih =>
    by_cases he : e.1 = k
    · simp only [aerase, he, if_true]
      exact ih.cons e
    · simp only [aerase, he, if_false]
      exact ih.cons₂ e

theorem occupiedOrBisectCheck_none_fst (c : Core) (keys : List VertexKey)
    (pair : Option ArcP × Option ArcP)
    (hnone : occupiedOrBisectCheck c keys pair = none) (k : ArcKey)
    (hfst : pair.1 = alookup c.arcs k) : arcFace c k = none := by
  rcases hl : alookup c.arcs k with _ | arc
  · simp [arcFace, hl]
  · rw [hl] at hfst
    obtain ⟨p1, p2⟩ := pair
    simp only at hfst
    subst hfst
    simp only [occupiedOrBisectCheck] at hnone
    by_cases hf : arc.face.isSome
    · rw [if_pos hf] at hnone
      simp at hnone
    · simp only [arcFace, hl, Option.bind]
      exact Option.not_isSome_iff_eq_none.mp hf

theorem faceInsertSnapshot_ok (c : Core) (keys : List VertexKey) (g : Int × Int)
    (cache : FaceInsertCache) (h : FaceInsertCache.snapshot c keys g = .ok cache) :
    cache.vertices = keys ∧ cache.geometry = g ∧
      cache.incoming = keys.map (fun v => (v, incomingArcKeysOf c v)) ∧
      cache.outgoing = keys.map (fun v => (v, outgoingArcKeysOf c v)) ∧
      ∀ k, k ∈ perimeter keys → arcFace c k = none := by
  unfold FaceInsertCache.snapshot at h
  split at h
  · simp at h
  split at h
  · simp at h
  dsimp only at h
  split at h
  · simp at h
  case _ hfind =>
    simp only [MRes.ok.injEq] at h
    subst h
    refine ⟨rfl, rfl, rfl, rfl, fun k hk => ?_⟩
    have hmm : alookup c.arcs k ∈ (perimeter keys).map fun ab => alookup c.arcs ab :=
      List.mem_map_of_mem _ hk
    have hfsts : (perimeter ((perimeter keys).map fun ab => alookup c.arcs ab)).map
        (fun p => p.1) = (perimeter keys).map fun ab => alookup c.arcs ab :=
      perimeter_map_fst _
    rw [← hfsts] at hmm
    rw [List.mem_map] at hmm
    obtain ⟨pair, hpair, hpfst⟩ := hmm
    have hcn : occupiedOrBisectCheck c keys pair = none :=
      List.findSome?_eq_none_iff.mp hfind pair hpair
    exact occupiedOrBisectCheck_none_fst c keys pair hcn k hpfst

theorem insertFace_effect (c : Core) (keys : List VertexKey) (g : Int × Int) (fk : Nat)
    (c2 : Core) (h : insertFace c keys g = .ok (fk, c2)) :
    fk = c.nextFaceKey ∧
      c2.vertices = c.vertices ∧
      c2.nextVertexKey = c.nextVertexKey ∧
      c2.nextFaceKey = c.nextFaceKey + 1 ∧
      c2.faces = c.faces ++ [(fk, { arc := (perimeter keys).headI, geometry := g.2 })] ∧
      (∀ k, k ∈ perimeter keys → arcFace c k = none) ∧
      (∀ k, arcFace c2 k = if k ∈ perimeter keys then some fk else arcFace c k) := by
  unfold insertFace at h
  split at h
  case _ cache hsnap =>
    obtain ⟨hcv, hcg, _, _, hext⟩ := faceInsertSnapshot_ok _ _ _ _ hsnap
    unfold insertFaceWithCache at h
    split at h
    case _ arcs cA heqc =>
      obtain ⟨harcs, hfrA⟩ := collectArcs_effect _ _ _ _ _ heqc
      obtain ⟨hvA, hfA, hnvA, hnfA, hafA⟩ := hfrA
      rw [hcv] at harcs
      split at h
      · simp at h
      case _ a0 rest =>
        dsimp only at h
        split at h
        case _ cC heqi =>
          have hint := interiorFold_effect cA.nextFaceKey (perimeter (a0 :: rest)) _ _ heqi
          obtain ⟨hvC, hfC, hnvC, hnfC, hafC⟩ := hint
          rcases hext2 : connectFaceExterior cC (a0 :: rest) cache.incoming cache.outgoing
            with cD | e1 | _ <;> rw [hext2] at h <;> simp only [MRes.map] at h
          · obtain ⟨hvD, hfD, hnvD, hnfD, hafD⟩ := connectFaceExterior_frame _ _ _ _ _ hext2
            simp only [MRes.ok.injEq, Prod.mk.injEq] at h
            obtain ⟨hfk, hc2⟩ := h
            subst hc2
            have hhead : a0 = (perimeter keys).headI := by
              rw [← harcs]
              rfl
            refine ⟨by rw [← hfk, hnfA], ?_, ?_, ?_, ?_, hext, ?_⟩
            · rw [hvD, hvC]
              show cA.vertices = c.vertices
              exact hvA
            · rw [hnvD, hnvC]
              show cA.nextVertexKey = c.nextVertexKey
              exact hnvA
            · rw [hnfD, hnfC]
              show cA.nextFaceKey + 1 = c.nextFaceKey + 1
              rw [hnfA]
            · rw [hfD, hfC]
              show cA.faces ++ _ = _
              rw [hfA, ← hfk, hnfA, ← hhead, hcg]
            · intro k
              rw [hafD, hafC]
              have hfsts : (perimeter (a0 :: rest)).map (fun p => p.1) = a0 :: rest :=
                perimeter_map_fst _
              rw [hfsts, harcs]
              by_cases hmem : k ∈ perimeter keys
              · rw [if_pos hmem, if_pos hmem, ← hfk, hnfA]
              · rw [if_neg hmem, if_neg hmem]
                show arcFace cA k = _
                exact hafA k
          · simp at h
          · simp at h
        · simp at h
        · simp at h
    · simp at h
    · simp at h
  · simp at h
  · simp at h

theorem insertFace_WF (c : Core) (keys : List VertexKey) (g : Int × Int) (fk : Nat)
    (c2 : Core) (hwf : c.WF) (h : insertFace c keys g = .ok (fk, c2)) : c2.WF := by
  obtain ⟨hfk, hv, hnv, hnf, hf, _, haf⟩ := insertFace_effect _ _ _ _ _ h
  have hnotmem : fk ∉ c.faces.map fun e => e.1 := by
    intro hmem
    have := hwf.faceKeyLt fk ((alookup_isSome_iff_mem _ _).mpr hmem)
    omega
  refine ⟨?_, ?_, ?_, ?_⟩
  · intro k hk
    rw [hv] at hk
    rw [hnv]
    exact hwf.vertexKeyLt k hk
  · intro k hk
    rw [hf, alookup_append] at hk
    rw [hnf]
    rcases hold : alookup c.faces k with _ | entry
    · rw [hold] at hk
      simp only [alookup] at hk
      by_cases hke : fk = k
      · omega
      · rw [if_neg hke] at hk
        simp [alookup] at hk
    · rw [hold] at hk
      have := hwf.faceKeyLt k (by rw [hold]; rfl)
      omega
  · intro k f hkf
    rw [haf k] at hkf
    rw [hnf]
    by_cases hmem : k ∈ perimeter keys
    · rw [if_pos hmem] at hkf
      simp only [Option.some_inj] at hkf
      omega
    · rw [if_neg hmem] at hkf
      have := hwf.arcFaceLt k f hkf
      omega
  · rw [hf, List.map_append]
    rw [List.nodup_append]
    refine ⟨hwf.facesNodup, by simp, ?_⟩
    intro x hx hx2
    simp only [List.map_cons, List.map_nil, List.mem_cons, List.not_mem_nil, or_false] at hx2
    subst hx2
    exact hnotmem hx

theorem removeWithCache_effect (c : Core) (cache : FaceRemoveCache) (fp : FaceP) (c2 : Core)
    (h : removeWithCache c cache = .ok (fp, c2)) :
    alookup c.faces cache.abc = some fp ∧
      c2.vertices = c.vertices ∧ c2.nextVertexKey = c.nextVertexKey ∧
      c2.nextFaceKey = c.nextFaceKey ∧
      c2.faces = aerase c.faces cache.abc ∧
      ∀ k, arcFace c2 k = if k ∈ cache.arcs then none else arcFace c k := by
  unfold removeWithCache at h
  split at h
  case _ c1 heq =>
    obtain ⟨hv1, hf1, hnv1, hnf1, haf1⟩ := disconnectFold_effect _ _ _ heq
    split at h
    · simp at h
    case _ face hlook =>
      simp only [MRes.ok.injEq, Prod.mk.injEq] at h
      obtain ⟨hfp, hc2⟩ := h
      subst hc2
      subst hfp
      rw [hf1] at hlook
      exact ⟨hlook, hv1, hnv1, hnf1, by rw [hf1], haf1⟩
  · simp at h
  · simp at h

theorem removeWithCache_WF (c : Core) (cache : FaceRemoveCache) (fp : FaceP) (c2 : Core)
    (hwf : c.WF) (h : removeWithCache c cache = .ok (fp, c2)) : c2.WF := by
  obtain ⟨_, hv, hnv, hnf, hf, haf⟩ := removeWithCache_effect _ _ _ _ h
  refine ⟨?_, ?_, ?_, ?_⟩
  · intro k hk
    rw [hv] at hk
    rw [hnv]
    exact hwf.vertexKeyLt k hk
  · intro k hk
    rw [hf] at hk
    rw [hnf]
    by_cases hke : k = cache.abc
    · rw [hke, alookup_aerase_self] at hk
      simp at hk
    · rw [alookup_aerase_ne _ _ _ hke] at hk
      exact hwf.faceKeyLt k hk
  · intro k f hkf
    rw [haf k] at hkf
    rw [hnf]
    by_cases hmem : k ∈ cache.arcs
    · rw [if_pos hmem] at hkf
      simp at hkf
    · rw [if_neg hmem] at hkf
      exact hwf.arcFaceLt k f hkf
  · rw [hf]
    exact hwf.facesNodup.sublist ((aerase_sublist _ _).map _)

theorem insertVertex_WF (c : Core) (g : Int) (hwf : c.WF) : (insertVertex c g).2.WF := by
  refine ⟨?_, hwf.faceKeyLt, hwf.arcFaceLt, hwf.facesNodup⟩
  intro k hk
  show k < c.nextVertexKey + 1
  rw [show (insertVertex c g).2.vertices = c.vertices ++ [(c.nextVertexKey, _)] from rfl,
    alookup_append] at hk
  rcases hold : alookup c.vertices k with _ | entry
  · rw [hold] at hk
    simp only [alookup] at hk
    by_cases hke : c.nextVertexKey = k
    · omega
    · rw [if_neg hke] at hk
      simp [alookup] at hk
  · rw [hold] at hk
    have := hwf.vertexKeyLt k (by rw [hold]; rfl)
    omega

/-- The combined effect of inserting one face per ring of `rings` (the loops
of `poke_with_cache`, `extrude_with_cache` and `bridge_with_cache`): the face
keys allocated are consecutive, the `i`-th face is anchored at the head of the
`i`-th ring's perimeter, each ring's perimeter arcs were unoccupied at the
start and carry exactly the `i`-th face at the end, and all other arc-face
assignments, the vertex store and the vertex counter are untouched. -/
theorem insertRings_effect (g : Int × Int) :
    ∀ (rings : List (List VertexKey)) (c c2 : Core), c.WF →
      insertRings c rings g = .ok c2 →
      c2.vertices = c.vertices ∧
      c2.nextVertexKey = c.nextVertexKey ∧
      c2.nextFaceKey = c.nextFaceKey + rings.length ∧
      c2.faces.length = c.faces.length + rings.length ∧
      (∀ fk : Nat, (fk < c.nextFaceKey ∨ c.nextFaceKey + rings.length ≤ fk) →
        alookup c2.faces fk = alookup c.faces fk) ∧
      (∀ i (h : i < rings.length),
        alookup c2.faces (c.nextFaceKey + i) =
          some { arc := (perimeter (rings.get ⟨i, h⟩)).headI, geometry := g.2 }) ∧
      (∀ i (h : i < rings.length), ∀ k, k ∈ perimeter (rings.get ⟨i, h⟩) →
        arcFace c k = none) ∧
      (∀ i (h : i < rings.length), ∀ k, k ∈ perimeter (rings.get ⟨i, h⟩) →
        arcFace c2 k = some (c.nextFaceKey + i)) ∧
      (∀ k, (∀ i (h : i < rings.length), k ∉ perimeter (rings.get ⟨i, h⟩)) →
        arcFace c2 k = arcFace c k) ∧
      c2.WF := by
  intro rings
  induction rings with
  | nil =>
    intro c c2 hwf h
    unfold insertRings foldMRes at h
    simp only [MRes.ok.injEq] at h
    subst h
    refine ⟨rfl, rfl, by simp, by simp, fun fk _ => rfl, ?_, ?_, ?_, fun k _ => rfl, hwf⟩
    · intro i hi
      simp at hi
    · intro i hi
      simp at hi
    · intro i hi
      simp at hi
  | cons r rest ih =>
    intro c c2 hwf h
    unfold insertRings foldMRes at h
    split at h
    case _ cA heq =>
      rcases hins : insertFace c r g with ⟨fk0, cA0⟩ | e1 | _ <;> rw [hins] at heq <;>
        simp only [MRes.map, MRes.ok.injEq] at heq
      · have hcA : cA0 = cA := heq
        subst hcA
        obtain ⟨hfk0, hvA, hnvA, hnfA, hfA, hextA, hafA⟩ := insertFace_effect _ _ _ _ _ hins
        have hwfA : cA0.WF := insertFace_WF _ _ _ _ _ hwf hins
        have hrest : insertRings cA0 rest g = .ok c2 := h
        obtain ⟨ihv, ihnv, ihnf, ihlen, ihout, ihidx, ihnone, ihsome, ihunch, ihwf⟩ :=
          ih cA0 c2 hwfA hrest
        have hbase : fk0 = c.nextFaceKey := hfk0
        have hlookA : ∀ fk : Nat, fk ≠ fk0 →
            alookup cA0.faces fk = alookup c.faces fk := by
          intro fk hne
          rw [hfA, alookup_append]
          rcases hold : alookup c.faces fk with _ | entry
          · have hne2 : ¬ fk0 = fk := fun hh => hne hh.symm
            simp [alookup, hne2]
          · rfl
        have hlookA0 : alookup cA0.faces fk0 =
            some { arc := (perimeter r).headI, geometry := g.2 } := by
          rw [hfA, alookup_append]
          rcases hold : alookup c.faces fk0 with _ | entry
          · simp [alookup]
          · have := hwf.faceKeyLt fk0 (by rw [hold]; rfl)
            omega
        refine ⟨?_, ?_, ?_, ?_, ?_, ?_, ?_, ?_, ?_, ihwf⟩
        · rw [ihv, hvA]
        · rw [ihnv, hnvA]
        · rw [ihnf, hnfA]
          simp only [List.length_cons]
          omega
        · rw [ihlen, hfA]
          simp only [List.length_append, List.length_cons, List.length_nil]
          omega
        · intro fk hcond
          have h1 : fk < cA0.nextFaceKey ∨ cA0.nextFaceKey + rest.length ≤ fk := by
            rw [hnfA]
            simp only [List.length_cons] at hcond
            omega
          rw [ihout fk h1]
          exact hlookA fk (by simp only [List.length_cons] at hcond; omega)
        · intro i hi
          cases i with
          | zero =>
            have h1 : c.nextFaceKey + 0 < cA0.nextFaceKey ∨
                cA0.nextFaceKey + rest.length ≤ c.nextFaceKey + 0 := by
              rw [hnfA]
              omega
            rw [ihout _ h1, show c.nextFaceKey + 0 = fk0 by omega, hlookA0]
            rfl
          | succ i =>
            have hi2 : i < rest.length := by
              simp only [List.length_cons] at hi
              omega
            have hshift : c.nextFaceKey + (i + 1) = cA0.nextFaceKey + i := by
              rw [hnfA]
              omega
            rw [hshift, ihidx i hi2]
            rfl
        · intro i hi k hk
          cases i with
          | zero => exact hextA k hk
          | succ i =>
            have hi2 : i < rest.length := by
              simp only [List.length_cons] at hi
              omega
            have hA : arcFace cA0 k = none := ihnone i hi2 k hk
            rw [hafA k] at hA
            by_cases hmem : k ∈ perimeter r
            · rw [if_pos hmem] at hA
              simp at hA
            · rw [if_neg hmem] at hA
              exact hA
        · intro i hi k hk
          cases i with
          | zero =>
            have hk2 : k ∈ perimeter r := hk
            have hA : arcFace cA0 k = some fk0 := by
              rw [hafA k, if_pos hk2]
            have hnotrest : ∀ j (hj : j < rest.length), k ∉ perimeter (rest.get ⟨j, hj⟩) := by
              intro j hj hmem
              have := ihnone j hj k hmem
              rw [this] at hA
              simp at hA
            rw [ihunch k hnotrest, hA, hbase]
            rfl
          | succ i =>
            have hi2 : i < rest.length := by
              simp only [List.length_cons] at hi
              omega
            have := ihsome i hi2 k hk
            rw [this, hnfA]
            congr 1
            omega
        · intro k hnot
          have hnot0 : k ∉ perimeter r := hnot 0 (by simp)
          have hnotrest : ∀ j (hj : j < rest.length), k ∉ perimeter (rest.get ⟨j, hj⟩) := by
            intro j hj
            exact hnot (j + 1) (by simp only [List.length_cons]; omega)
          rw [ihunch k hnotrest, hafA k, if_neg hnot0]
      · simp at heq
      · simp at heq
    · simp at h
    · simp at h

theorem perimeter_triple {α : Type} (a b c : α) :
    perimeter [a, b, c] = [(a, b), (b, c), (c, a)] := rfl

theorem perimeter_quadruple {α : Type} (a b c d : α) :
    perimeter [a, b, c, d] = [(a, b), (b, c), (c, d), (d, a)] := rfl

/-! ## C7: poke builds a triangle fan around the new vertex -/

/-- **C7**: for every face `f` (whose vertex ring of arity `n` the snapshot
captures as `cache.vertices`) and every vertex payload `p`, a successful
`poke` removes `f`, inserts exactly one new vertex carrying `p` — the
returned key — and inserts exactly `n` new faces, the `i`-th anchored at the
consecutive ring pair `(vᵢ, vᵢ₊₁)`; in the final core the arcs assigned to
the `i`-th new face are exactly the triangle `(vᵢ, vᵢ₊₁)`, `(vᵢ₊₁, center)`,
`(center, vᵢ)`, so all `n` faces are triangles sharing the new vertex.
(The vertex/edge mutation layers and view traversals used by the embedding
are modelled from the specification.) -/
theorem poke_fan_spec (c : Core) (f : Nat) (p : Int) (cache : FacePokeCache)
    (vk : Nat) (c2 : Core) (hwf : c.WF)
    (hsnap : FacePokeCache.snapshot c f p = .ok cache)
    (hrun : pokeWithCache c cache = .ok (vk, c2)) :
    cache.geometry = p ∧ cache.cache.abc = f ∧
    ringSources c f = some cache.vertices ∧
    vk = c.nextVertexKey ∧
    alookup c2.vertices vk = some { arc := none, geometry := p } ∧
    c2.vertices.length = c.vertices.length + 1 ∧
    alookup c2.faces f = none ∧
    c2.faces.length = c.faces.length - 1 + cache.vertices.length ∧
    ∃ fp, alookup c.faces f = some fp ∧
      ∀ i (hi : i < (perimeter cache.vertices).length),
        alookup c2.faces (c.nextFaceKey + i) =
          some { arc := (perimeter cache.vertices).get ⟨i, hi⟩, geometry := fp.geometry } ∧
        ∀ k, arcFace c2 k = some (c.nextFaceKey + i) ↔
          (k = (perimeter cache.vertices).get ⟨i, hi⟩ ∨
           k = (((perimeter cache.vertices).get ⟨i, hi⟩).2, vk) ∨
           k = (vk, ((perimeter cache.vertices).get ⟨i, hi⟩).1)) := by
  -- unpack the snapshot
  unfold FacePokeCache.snapshot at hsnap
  split at hsnap
  · simp at hsnap
  case _ face hface =>
    split at hsnap
    · simp at hsnap
    case _ arcs hring =>
      have hrc : FaceRemoveCache.snapshot c f = .ok { abc := f, arcs := arcs } := by
        simp only [FaceRemoveCache.snapshot, hface, hring]
      rw [hrc] at hsnap
      simp only [MRes.ok.injEq] at hsnap
      subst hsnap
      -- unpack the run
      unfold pokeWithCache at hrun
      split at hrun
      case _ face2 c1 hrem =>
        obtain ⟨hlook2, hv1, hnv1, hnf1, hf1, haf1⟩ := removeWithCache_effect _ _ _ _ hrem
        have hface2 : face2 = face := by
          simp only at hlook2
          rw [hface] at hlook2
          exact (Option.some_inj.mp hlook2).symm
        have hwf1 : c1.WF := removeWithCache_WF _ _ _ _ hwf hrem
        have hwf1b : (insertVertex c1 p).2.WF := insertVertex_WF c1 p hwf1
        set c1b := (insertVertex c1 p).2 with hc1b
        have hvk0 : (insertVertex c1 p).1 = c.nextVertexKey := by
          show c1.nextVertexKey = c.nextVertexKey
          exact hnv1
        dsimp only at hrun
        rcases hrings : insertRings c1b
            ((perimeter (arcs.map fun ab => ab.1)).map fun pr =>
              [pr.1, pr.2, (insertVertex c1 p).1]) (0, face2.geometry)
          with cF | e1 | _ <;> rw [hrings] at hrun <;>
          simp only [MRes.map, MRes.ok.injEq, Prod.mk.injEq] at hrun
        · obtain ⟨hvk, hc2⟩ := hrun
          subst hc2
          obtain ⟨ihv, ihnv, ihnf, ihlen, ihout, ihidx, ihnone, ihsome, ihunch, ihwf⟩ :=
            insertRings_effect _ _ _ _ hwf1b hrings
          have hvk2 : vk = c.nextVertexKey := by rw [← hvk, hvk0]
          have hringslen : ((perimeter (arcs.map fun ab => ab.1)).map fun pr =>
              [pr.1, pr.2, (insertVertex c1 p).1]).length =
              (perimeter (arcs.map fun ab => ab.1)).length := List.length_map _ _
          have hc1bnf : c1b.nextFaceKey = c.nextFaceKey := hnf1
          have hc1bnv : c1b.nextVertexKey = c.nextVertexKey + 1 := by
            show c1.nextVertexKey + 1 = c.nextVertexKey + 1
            rw [hnv1]
          have hfnotnew : f < c.nextFaceKey := hwf.faceKeyLt f (by rw [hface]; rfl)
          refine ⟨rfl, rfl, ?_, hvk2, ?_, ?_, ?_, ?_, face, hface, ?_⟩
          · simp [ringSources, ringArcs, hface, hring]
          · -- the new vertex entry
            rw [ihv]
            show alookup (c1.vertices ++ [(c1.nextVertexKey, _)]) vk = _
            rw [alookup_append, hv1, hnv1, ← hvk2]
            rcases hold : alookup c.vertices vk with _ | entry
            · simp [alookup]
            · have := hwf.vertexKeyLt vk (by rw [hold]; rfl)
              omega
          · rw [ihv]
            show (c1.vertices ++ [_]).length = _
            rw [List.length_append, hv1]
            rfl
          · -- face f is gone
            have hout : alookup cF.faces f = alookup c1b.faces f := by
              refine ihout f ?_
              left
              rw [hc1bnf]
              exact hfnotnew
            rw [hout]
            show alookup c1.faces f = none
            rw [hf1]
            exact alookup_aerase_self _ _
          · -- face count
            rw [ihlen, hringslen]
            have h1 : c1b.faces.length = c1.faces.length := rfl
            have h2 : c1.faces.length = c.faces.length - 1 := by
              rw [hf1]
              exact length_aerase _ _ hwf.facesNodup (by rw [hface]; rfl)
            rw [h1, h2, perimeter_length, List.length_map]
          · -- the n triangles
            intro i hi
            have hi2 : i < ((perimeter (arcs.map fun ab => ab.1)).map fun pr =>
                [pr.1, pr.2, (insertVertex c1 p).1]).length := by
              rw [hringslen]
              exact hi
            have hgeteq : (((perimeter (arcs.map fun ab => ab.1)).map fun pr =>
                [pr.1, pr.2, (insertVertex c1 p).1]).get ⟨i, hi2⟩) =
                [((perimeter (arcs.map fun ab => ab.1)).get ⟨i, hi⟩).1,
                 ((perimeter (arcs.map fun ab => ab.1)).get ⟨i, hi⟩).2,
                 (insertVertex c1 p).1] := by
              simp [List.get_eq_getElem, List.getElem_map]
            constructor
            · have hidx := ihidx i hi2
              rw [hc1bnf] at hidx
              rw [hidx, hgeteq, perimeter_triple]
              simp [hface2]
            · intro k
              constructor
              · intro harc
                by_cases hex : ∃ j, ∃ hj : j < ((perimeter (arcs.map fun ab => ab.1)).map
                    fun pr => [pr.1, pr.2, (insertVertex c1 p).1]).length,
                    k ∈ perimeter ((((perimeter (arcs.map fun ab => ab.1)).map fun pr =>
                      [pr.1, pr.2, (insertVertex c1 p).1]).get ⟨j, hj⟩))
                · obtain ⟨j, hj, hkj⟩ := hex
                  have hsome := ihsome j hj k hkj
                  rw [harc, hc1bnf] at hsome
                  have hij : i = j := by
                    simp only [Option.some_inj] at hsome
                    omega
                  subst hij
                  rw [hgeteq, perimeter_triple] at hkj
                  simpa [hvk] using hkj
                · push_neg at hex
                  have hunch := ihunch k (fun j hj => hex j hj)
                  rw [harc] at hunch
                  have harc1 : arcFace c1 k = some (c.nextFaceKey + i) := hunch.symm
                  have := hwf1.arcFaceLt k _ harc1
                  rw [hnf1] at this
                  omega
              · intro hk
                have hkmem : k ∈ perimeter ((((perimeter (arcs.map fun ab => ab.1)).map
                    fun pr => [pr.1, pr.2, (insertVertex c1 p).1]).get ⟨i, hi2⟩)) := by
                  rw [hgeteq, perimeter_triple]
                  simpa [hvk] using hk
                have := ihsome i hi2 k hkmem
                rw [this, hc1bnf]
        · simp at hrun
        · simp at hrun
      · simp at hrun
      · simp at hrun

theorem alookup_mem {K V : Type} [DecidableEq K] (l : List (K × V)) (k : K) (v : V)
    (h : alookup l k = some v) : (k, v) ∈ l := by
  induction l with
  | nil => simp [alookup] at h
  | cons e rest ih =>
    by_cases he : e.1 = k
    · simp only [alookup, he, if_true, Option.some_inj] at h
      have hkv : (k, v) = e := by
        rw [← he, ← h]
      rw [hkv]
      exact List.mem_cons_self _ _
    · simp only [alookup, he, if_false] at h
      exact List.mem_cons.mpr (Or.inr (ih h))

/-- Entry-wise (decidable) sufficient conditions for `Core.WF`. -/
theorem Core.WF_of_entries (c : Core)
    (h1 : ∀ e ∈ c.vertices, e.1 < c.nextVertexKey)
    (h2 : ∀ e ∈ c.faces, e.1 < c.nextFaceKey)
    (h3 : ∀ e ∈ c.arcs, ∀ f : Nat, e.2.face = some f → f < c.nextFaceKey)
    (h4 : (c.faces.map fun e => e.1).Nodup) : c.WF := by
  refine ⟨?_, ?_, ?_, h4⟩
  · intro k hk
    rcases ho : alookup c.vertices k with _ | v
    · rw [ho] at hk
      simp at hk
    · exact h1 (k, v) (alookup_mem _ _ _ ho)
  · intro k hk
    rcases ho : alookup c.faces k with _ | v
    · rw [ho] at hk
      simp at hk
    · exact h2 (k, v) (alookup_mem _ _ _ ho)
  · intro k f hkf
    simp only [arcFace] at hkf
    rcases ho : alookup c.arcs k with _ | a
    · rw [ho] at hkf
      simp at hkf
    · rw [ho] at hkf
      exact h3 (k, a) (alookup_mem _ _ _ ho) f hkf

/-- The poke cache that `FacePokeCache.snapshot triDemo 0 7` computes. -/
def pokeDemoCache : FacePokeCache :=
  { vertices := [0, 1, 2], geometry := 7,
    cache := { abc := 0, arcs := [(0, 1), (1, 2), (2, 0)] } }

/-- Concrete instantiation of `poke_fan_spec`: poking the triangle `triDemo`
succeeds, removes face 0, creates three triangles and the center vertex. -/
theorem poke_fan_spec_witness :
    ∃ vk c2, pokeWithCache triDemo pokeDemoCache = .ok (vk, c2) ∧
      alookup c2.faces 0 = none ∧
      c2.faces.length = 3 ∧
      vk = 3 ∧
      alookup c2.vertices vk = some { arc := none, geometry := 7 } := by
  have hwf : triDemo.WF :=
    Core.WF_of_entries _ (by decide) (by decide) (by decide) (by decide)
  have hok : (pokeWithCache triDemo pokeDemoCache).isOk = true := by decide
  rcases hres : pokeWithCache triDemo pokeDemoCache with ⟨vk, c2⟩ | e | _
  · obtain ⟨_, _, _, hvk, hvert, _, hfnone, hlen, _⟩ :=
      poke_fan_spec triDemo 0 7 pokeDemoCache vk c2 hwf (by decide) hres
    refine ⟨vk, c2, rfl, hfnone, ?_, ?_, hvert⟩
    · rw [hlen]
      decide
    · rw [hvk]
      decide
  · rw [hres] at hok
    simp [MRes.isOk] at hok
  · rw [hres] at hok
    simp [MRes.isOk] at hok

/-! ## Effect lemmas for the extrude and bridge drivers -/

theorem foldMRes_map {α β : Type} (f : Core → β → MRes Core) (m : α → β) :
    ∀ (xs : List α) (c : Core), foldMRes (fun c x => f c (m x)) c xs = foldMRes f c (xs.map m) := by
  intro xs
  induction xs with
  | nil => intro c; rfl
  | cons x rest ih =>
    intro c
    rw [show (x :: rest).map m = m x :: rest.map m from rfl]
    unfold foldMRes
    rcases hf : f c (m x) with c1 | e | _ <;> simp only [hf]
    · exact ih c1

theorem faceRemoveSnapshot_ok (c : Core) (abc : Nat) (rc : FaceRemoveCache)
    (h : FaceRemoveCache.snapshot c abc = .ok rc) :
    rc.abc = abc ∧ ∃ face, alookup c.faces abc = some face ∧
      ringArcsFrom c face.arc (c.arcs.length + 1) face.arc = some rc.arcs := by
  unfold FaceRemoveCache.snapshot at h
  split at h
  · simp at h
  case _ face hface =>
    split at h
    · simp at h
    case _ arcs hring =>
      simp only [MRes.ok.injEq] at h
      subst h
      exact ⟨rfl, face, hface, hring⟩

theorem insertVertices_effect :
    ∀ (gs : List Int) (c : Core), c.WF →
      (insertVertices c gs).1 = (List.range gs.length).map (fun i => c.nextVertexKey + i) ∧
      (insertVertices c gs).2.arcs = c.arcs ∧
      (insertVertices c gs).2.faces = c.faces ∧
      (insertVertices c gs).2.nextFaceKey = c.nextFaceKey ∧
      (insertVertices c gs).2.nextVertexKey = c.nextVertexKey + gs.length ∧
      (insertVertices c gs).2.vertices.length = c.vertices.length + gs.length ∧
      (∀ i (hi : i < gs.length),
        alookup (insertVertices c gs).2.vertices (c.nextVertexKey + i) =
          some { arc := none, geometry := gs.get ⟨i, hi⟩ }) ∧
      (∀ k : Nat, (alookup c.vertices k).isSome = true →
        alookup (insertVertices c gs).2.vertices k = alookup c.vertices k) ∧
      (insertVertices c gs).2.WF := by
  intro gs
  induction gs with
  | nil =>
    intro c hwf
    refine ⟨rfl, rfl, rfl, rfl, by simp [insertVertices], by simp [insertVertices], ?_,
      fun k _ => rfl, hwf⟩
    intro i hi
    simp at hi
  | cons g rest ih =>
    intro c hwf
    have hwf1 : (insertVertex c g).2.WF := insertVertex_WF c g hwf
    obtain ⟨ihkeys, iharcs, ihfaces, ihnf, ihnv, ihlen, ihlook, ihold, ihwf⟩ :=
      ih (insertVertex c g).2 hwf1
    have hnv1 : (insertVertex c g).2.nextVertexKey = c.nextVertexKey + 1 := rfl
    have hv1 : (insertVertex c g).2.vertices =
        c.vertices ++ [(c.nextVertexKey, { arc := none, geometry := g })] := rfl
    have hlooknew : alookup (insertVertex c g).2.vertices c.nextVertexKey =
        some { arc := none, geometry := g } := by
      rw [hv1, alookup_append]
      rcases hold : alookup c.vertices c.nextVertexKey with _ | entry
      · simp [alookup]
      · have := hwf.vertexKeyLt c.nextVertexKey (by rw [hold]; rfl)
        omega
    refine ⟨?_, iharcs, ihfaces, ihnf, ?_, ?_, ?_, ?_, ihwf⟩
    · show (insertVertex c g).1 :: (insertVertices (insertVertex c g).2 rest).1 = _
      rw [ihkeys]
      show c.nextVertexKey :: _ = _
      rw [List.length_cons, List.range_succ_eq_map, List.map_cons, List.map_map]
      congr 1
      refine List.map_congr_left ?_
      intro a _
      show (insertVertex c g).2.nextVertexKey + a = c.nextVertexKey + (a + 1)
      rw [hnv1]
      omega
    · show (insertVertices (insertVertex c g).2 rest).2.nextVertexKey = _
      rw [ihnv, hnv1, List.length_cons]
      omega
    · show (insertVertices (insertVertex c g).2 rest).2.vertices.length = _
      rw [ihlen, hv1, List.length_append, List.length_cons]
      simp
      omega
    · intro i hi
      cases i with
      | zero =>
        show alookup (insertVertices (insertVertex c g).2 rest).2.vertices
          (c.nextVertexKey + 0) = _
        rw [show c.nextVertexKey + 0 = c.nextVertexKey by omega]
        rw [ihold c.nextVertexKey (by rw [hlooknew]; rfl), hlooknew]
        rfl
      | succ i =>
        have hi2 : i < rest.length := by
          simp only [List.length_cons] at hi
          omega
        have := ihlook i hi2
        rw [hnv1] at this
        show alookup (insertVertices (insertVertex c g).2 rest).2.vertices
          (c.nextVertexKey + (i + 1)) = _
        rw [show c.nextVertexKey + (i + 1) = c.nextVertexKey + 1 + i by omega]
        rw [this]
        rfl
    · intro k hk
      have hk1 : alookup (insertVertex c g).2.vertices k = alookup c.vertices k := by
        rw [hv1, alookup_append]
        rcases hold : alookup c.vertices k with _ | entry
        · rw [hold] at hk
          simp at hk
        · rfl
      show alookup (insertVertices (insertVertex c g).2 rest).2.vertices k = _
      rw [ihold k (by rw [hk1]; exact hk), hk1]

theorem filterMap_geom_spec (V : List (VertexKey × VertexP)) (t : Int) :
    ∀ (l : List VertexKey), (∀ v ∈ l, (alookup V v).isSome = true) →
      (l.filterMap fun v => (alookup V v).map fun p => p.geometry + t).length = l.length ∧
      ∀ pr ∈ l.zip (l.filterMap fun v => (alookup V v).map fun p => p.geometry + t),
        ∃ vp, alookup V pr.1 = some vp ∧ pr.2 = vp.geometry + t := by
  intro l
  induction l with
  | nil => intro _; exact ⟨rfl, by simp⟩
  | cons v rest ih =>
    intro hall
    have hv : (alookup V v).isSome = true := hall v (List.mem_cons_self _ _)
    rcases hlv : alookup V v with _ | vp
    · rw [hlv] at hv
      simp at hv
    · obtain ⟨ihlen, ihmem⟩ := ih (fun w hw => hall w (List.mem_cons.mpr (Or.inr hw)))
      have hstep : (v :: rest).filterMap (fun v => (alookup V v).map fun p => p.geometry + t) =
          (vp.geometry + t) :: rest.filterMap (fun v => (alookup V v).map fun p => p.geometry + t) := by
        simp [List.filterMap_cons, hlv]
      rw [hstep]
      refine ⟨by simp [ihlen], ?_⟩
      intro pr hpr
      rcases List.mem_cons.mp hpr with h1 | h2
      · subst h1
        exact ⟨vp, hlv, rfl⟩
      · exact ihmem pr h2

/-! ## C8: extrude lifts the face to a translated top with quad walls -/

/-- **C8**: for every face `f` of arity `n` and every translation `t`, a
successful `extrude` removes `f`, inserts exactly `n` new vertices — the
translated images of `f`'s ring vertices, at the `n` consecutive keys from
the old vertex counter — inserts exactly one top `n`-gon over the new
vertices, whose key is returned, and exactly `n` side quadrilaterals
`(sᵢ, sᵢ₊₁, dᵢ₊₁, dᵢ)` joining consecutive source vertices with their
destination images; in the final core the arcs assigned to the top face are
exactly the perimeter of the new vertex ring and the arcs assigned to the
`i`-th wall are exactly the perimeter of its quadrilateral.  (The
vertex/edge mutation layers and view traversals used by the embedding are
modelled from the specification.) -/
theorem extrude_spec (c : Core) (f : Nat) (t : Int) (cache : FaceExtrudeCache)
    (ek : Nat) (c2 : Core) (hwf : c.WF)
    (hsnap : FaceExtrudeCache.snapshot c f t = .ok cache)
    (hlive : ∀ v ∈ cache.sources, (alookup c.vertices v).isSome = true)
    (hrun : extrudeWithCache c cache = .ok (ek, c2)) :
    cache.cache.abc = f ∧
    ringSources c f = some cache.sources ∧
    (∃ fp, alookup c.faces f = some fp ∧ cache.geometry = fp.geometry) ∧
    cache.destinations.length = cache.sources.length ∧
    (∀ pr ∈ cache.sources.zip cache.destinations,
      ∃ vp, alookup c.vertices pr.1 = some vp ∧ pr.2 = vp.geometry + t) ∧
    ek = c.nextFaceKey ∧
    c2.nextVertexKey = c.nextVertexKey + cache.sources.length ∧
    c2.vertices.length = c.vertices.length + cache.sources.length ∧
    (∀ i (hi : i < cache.destinations.length),
      alookup c2.vertices (c.nextVertexKey + i) =
        some { arc := none, geometry := cache.destinations.get ⟨i, hi⟩ }) ∧
    alookup c2.faces f = none ∧
    c2.faces.length = c.faces.length - 1 + (1 + cache.sources.length) ∧
    (alookup c2.faces ek = some
      { arc := (perimeter ((List.range cache.sources.length).map
          fun j => c.nextVertexKey + j)).headI
        geometry := cache.geometry } ∧
      ∀ k, arcFace c2 k = some ek ↔
        k ∈ perimeter ((List.range cache.sources.length).map
          fun j => c.nextVertexKey + j)) ∧
    ∀ i (hi : i < (perimeter (cache.sources.zip
        ((List.range cache.sources.length).map fun j => c.nextVertexKey + j))).length),
      ∀ q, (perimeter (cache.sources.zip
          ((List.range cache.sources.length).map
            fun j => c.nextVertexKey + j))).get ⟨i, hi⟩ = q →
        alookup c2.faces (c.nextFaceKey + 1 + i) =
          some { arc := (q.1.1, q.2.1), geometry := cache.geometry } ∧
        ∀ k, arcFace c2 k = some (c.nextFaceKey + 1 + i) ↔
          k ∈ perimeter [q.1.1, q.2.1, q.2.2, q.1.2] := by
  -- unpack the snapshot
  unfold FaceExtrudeCache.snapshot at hsnap
  split at hsnap
  case _ rc hrc0 =>
    split at hsnap
    · simp at hsnap
    case _ face hface =>
      split at hsnap
      · simp at hsnap
      case _ arcs hring =>
        dsimp only at hsnap
        simp only [MRes.ok.injEq] at hsnap
        have hcs : cache.sources = arcs.map fun ab => ab.1 := by rw [← hsnap]
        have hcd : cache.destinations = (arcs.map fun ab => ab.1).filterMap
            fun v => (alookup c.vertices v).map fun p => p.geometry + t := by rw [← hsnap]
        have hcg : cache.geometry = face.geometry := by rw [← hsnap]
        have hcc : cache.cache = rc := by rw [← hsnap]
        have habc : rc.abc = f := (faceRemoveSnapshot_ok c f rc hrc0).1
        have hcd2 : cache.destinations = cache.sources.filterMap
            fun v => (alookup c.vertices v).map fun p => p.geometry + t := by
          rw [hcd, ← hcs]
        obtain ⟨hflen, hfzip⟩ := filterMap_geom_spec c.vertices t cache.sources hlive
        have hdlen : cache.destinations.length = cache.sources.length := by
          rw [hcd2, hflen]
        -- unpack the run
        unfold extrudeWithCache at hrun
        split at hrun
        case _ fp0 c1 hrem =>
          obtain ⟨hlookf, hv1, hnv1, hnf1, hf1, haf1⟩ := removeWithCache_effect _ _ _ _ hrem
          rw [hcc, habc] at hlookf hf1
          have hwf1 : c1.WF := removeWithCache_WF _ _ _ _ hwf hrem
          obtain ⟨ivkeys, ivarcs, ivfaces, ivnf, ivnv, ivlen, ivlook, ivold, ivwf⟩ :=
            insertVertices_effect cache.destinations c1 hwf1
          have hdk : (insertVertices c1 cache.destinations).1 =
              (List.range cache.sources.length).map fun j => c.nextVertexKey + j := by
            rw [ivkeys, hdlen]
            simp only [hnv1]
          dsimp only at hrun
          split at hrun
          case _ ek0 c2t hins =>
            obtain ⟨hek0, htv, htnv, htnf, htf, htext, htaf⟩ :=
              insertFace_effect _ _ _ _ _ hins
            have hwf2t : c2t.WF := insertFace_WF _ _ _ _ _ ivwf hins
            rcases hrings : insertRings c2t
                ((perimeter (cache.sources.zip (insertVertices c1 cache.destinations).1)).map
                  fun q => [q.1.1, q.2.1, q.2.2, q.1.2]) (0, cache.geometry)
              with cF | e1 | _ <;> rw [hrings] at hrun <;>
              simp only [MRes.map, MRes.ok.injEq, Prod.mk.injEq] at hrun
            · obtain ⟨heke, hc2⟩ := hrun
              subst heke
              subst hc2
              have heknum : ek0 = c.nextFaceKey := by
                rw [hek0, ivnf, hnf1]
              subst heknum
              rw [hdk] at htf htext htaf hrings
              obtain ⟨rhv, rhnv, rhnf, rhlen, rhout, rhidx, rhnone, rhsome, rhunch, rhwf⟩ :=
                insertRings_effect _ _ _ _ hwf2t hrings
              have hc2tnf : c2t.nextFaceKey = c.nextFaceKey + 1 := by
                rw [htnf, ivnf, hnf1]
              have hflt : f < c.nextFaceKey := hwf.faceKeyLt f (by rw [hface]; rfl)
              have hziplen : (cache.sources.zip ((List.range cache.sources.length).map
                  fun j => c.nextVertexKey + j)).length = cache.sources.length := by
                rw [List.length_zip, List.length_map, List.length_range]
                omega
              have harcseq : ∀ k, arcFace (insertVertices c1 cache.destinations).2 k =
                  arcFace c1 k := by
                intro k
                simp only [arcFace, ivarcs]
              refine ⟨by rw [hcc]; exact habc, ?_, ⟨face, hface, hcg⟩, hdlen, ?_, rfl,
                ?_, ?_, ?_, ?_, ?_, ⟨?_, ?_⟩, ?_⟩
              · rw [hcs]
                simp [ringSources, ringArcs, hface, hring]
              · rw [hcd2]
                exact hfzip
              · rw [rhnv, htnv, ivnv, hnv1, hdlen]
              · rw [rhv, htv, ivlen, hv1, hdlen]
              · intro i hi
                rw [rhv, htv]
                have h := ivlook i hi
                rw [hnv1] at h
                exact h
              · -- face f is gone
                have hout : alookup cF.faces f = alookup c2t.faces f := by
                  refine rhout f ?_
                  left
                  omega
                rw [hout, htf, alookup_append, ivfaces, hf1, alookup_aerase_self]
                have hne : ¬ c.nextFaceKey = f := by omega
                simp [alookup, hne]
              · -- face count
                have e1 : c1.faces.length = c.faces.length - 1 := by
                  rw [hf1]
                  exact length_aerase _ _ hwf.facesNodup (by rw [hlookf]; rfl)
                have e2 : c2t.faces.length =
                    (insertVertices c1 cache.destinations).2.faces.length + 1 := by
                  rw [htf]
                  simp
                have e3 : cF.faces.length = c2t.faces.length +
                    ((perimeter (cache.sources.zip ((List.range cache.sources.length).map
                      fun j => c.nextVertexKey + j))).map
                        fun q => [q.1.1, q.2.1, q.2.2, q.1.2]).length := rhlen
                rw [List.length_map, perimeter_length, hziplen] at e3
                have e4 : (insertVertices c1 cache.destinations).2.faces.length =
                    c1.faces.length := by rw [ivfaces]
                have h1lt : 1 ≤ c.faces.length := by
                  rcases hl : c.faces with _ | _
                  · rw [hl] at hlookf
                    simp [alookup] at hlookf
                  · simp
                omega
              · -- the top face entry
                have hout : alookup cF.faces c.nextFaceKey =
                    alookup c2t.faces c.nextFaceKey := by
                  refine rhout c.nextFaceKey ?_
                  left
                  omega
                rw [hout, htf, alookup_append, ivfaces]
                rcases hold : alookup c1.faces c.nextFaceKey with _ | entry
                · simp [alookup]
                · have := hwf1.faceKeyLt c.nextFaceKey (by rw [hold]; rfl)
                  omega
              · -- the top face owns exactly the new perimeter
                intro k
                constructor
                · intro harc
                  by_cases hex : ∃ j, ∃ hj : j < ((perimeter (cache.sources.zip
                      ((List.range cache.sources.length).map
                        fun j => c.nextVertexKey + j))).map
                          fun q => [q.1.1, q.2.1, q.2.2, q.1.2]).length,
                      k ∈ perimeter ((((perimeter (cache.sources.zip
                        ((List.range cache.sources.length).map
                          fun j => c.nextVertexKey + j))).map
                            fun q => [q.1.1, q.2.1, q.2.2, q.1.2]).get ⟨j, hj⟩))
                  · obtain ⟨j, hj, hkj⟩ := hex
                    have hsome := rhsome j hj k hkj
                    rw [harc] at hsome
                    simp only [Option.some_inj] at hsome
                    omega
                  · push_neg at hex
                    have hunch := rhunch k (fun j hj => hex j hj)
                    rw [harc] at hunch
                    have h2 : arcFace c2t k = some c.nextFaceKey := hunch.symm
                    rw [htaf k] at h2
                    by_cases hm : k ∈ perimeter ((List.range cache.sources.length).map
                        fun j => c.nextVertexKey + j)
                    · exact hm
                    · rw [if_neg hm, harcseq k] at h2
                      have := hwf1.arcFaceLt k c.nextFaceKey h2
                      omega
                · intro hk
                  have h2t : arcFace c2t k = some c.nextFaceKey := by
                    rw [htaf k, if_pos hk]
                  have hnot : ∀ j (hj : j < ((perimeter (cache.sources.zip
                      ((List.range cache.sources.length).map
                        fun j => c.nextVertexKey + j))).map
                          fun q => [q.1.1, q.2.1, q.2.2, q.1.2]).length),
                      k ∉ perimeter ((((perimeter (cache.sources.zip
                        ((List.range cache.sources.length).map
                          fun j => c.nextVertexKey + j))).map
                            fun q => [q.1.1, q.2.1, q.2.2, q.1.2]).get ⟨j, hj⟩)) := by
                    intro j hj hmem
                    have := rhnone j hj k hmem
                    rw [this] at h2t
                    simp at h2t
                  rw [rhunch k hnot, h2t]
              · -- the side quadrilaterals
                intro i hi q hq
                subst hq
                have hi2 : i < ((perimeter (cache.sources.zip
                    ((List.range cache.sources.length).map
                      fun j => c.nextVertexKey + j))).map
                        fun q => [q.1.1, q.2.1, q.2.2, q.1.2]).length := by
                  rw [List.length_map]
                  exact hi
                have hgeteq : (((perimeter (cache.sources.zip
                    ((List.range cache.sources.length).map
                      fun j => c.nextVertexKey + j))).map
                        fun q => [q.1.1, q.2.1, q.2.2, q.1.2]).get ⟨i, hi2⟩) =
                    [((perimeter (cache.sources.zip
                      ((List.range cache.sources.length).map
                        fun j => c.nextVertexKey + j))).get ⟨i, hi⟩).1.1,
                     ((perimeter (cache.sources.zip
                      ((List.range cache.sources.length).map
                        fun j => c.nextVertexKey + j))).get ⟨i, hi⟩).2.1,
                     ((perimeter (cache.sources.zip
                      ((List.range cache.sources.length).map
                        fun j => c.nextVertexKey + j))).get ⟨i, hi⟩).2.2,
                     ((perimeter (cache.sources.zip
                      ((List.range cache.sources.length).map
                        fun j => c.nextVertexKey + j))).get ⟨i, hi⟩).1.2] := by
                  simp [List.get_eq_getElem, List.getElem_map]
                constructor
                · have hidx := rhidx i hi2
                  rw [hc2tnf] at hidx
                  rw [show c.nextFaceKey + 1 + i = c.nextFaceKey + 1 + i from rfl]
                  rw [hidx, hgeteq, perimeter_quadruple]
                  rfl
                · intro k
                  constructor
                  · intro harc
                    by_cases hex : ∃ j, ∃ hj : j < ((perimeter (cache.sources.zip
                        ((List.range cache.sources.length).map
                          fun j => c.nextVertexKey + j))).map
                            fun q => [q.1.1, q.2.1, q.2.2, q.1.2]).length,
                        k ∈ perimeter ((((perimeter (cache.sources.zip
                          ((List.range cache.sources.length).map
                            fun j => c.nextVertexKey + j))).map
                              fun q => [q.1.1, q.2.1, q.2.2, q.1.2]).get ⟨j, hj⟩))
                    · obtain ⟨j, hj, hkj⟩ := hex
                      have hsome := rhsome j hj k hkj
                      rw [harc, hc2tnf] at hsome
                      have hij : i = j := by
                        simp only [Option.some_inj] at hsome
                        omega
                      subst hij
                      rw [hgeteq, perimeter_quadruple] at hkj
                      exact hkj
                    · push_neg at hex
                      have hunch := rhunch k (fun j hj => hex j hj)
                      rw [harc] at hunch
                      have h2 : arcFace c2t k = some (c.nextFaceKey + 1 + i) := hunch.symm
                      rw [htaf k] at h2
                      by_cases hm : k ∈ perimeter ((List.range cache.sources.length).map
                          fun j => c.nextVertexKey + j)
                      · rw [if_pos hm] at h2
                        simp only [Option.some_inj] at h2
                        omega
                      · rw [if_neg hm, harcseq k] at h2
                        have := hwf1.arcFaceLt k _ h2
                        omega
                  · intro hk
                    have hkmem : k ∈ perimeter ((((perimeter (cache.sources.zip
                        ((List.range cache.sources.length).map
                          fun j => c.nextVertexKey + j))).map
                            fun q => [q.1.1, q.2.1, q.2.2, q.1.2]).get ⟨i, hi2⟩)) := by
                      rw [hgeteq, perimeter_quadruple]
                      exact hk
                    have h := rhsome i hi2 k hkmem
                    rw [h, hc2tnf]
            · simp at hrun
            · simp at hrun
          · simp at hrun
          · simp at hrun
        · simp at hrun
        · simp at hrun
  · simp at hsnap
  · simp at hsnap

/-- The extrude cache that `FaceExtrudeCache.snapshot triDemo 0 100`
computes: ring sources `0, 1, 2` with payloads `10, 20, 30`, so translated
destinations `110, 120, 130`. -/
def extrudeDemoCache : FaceExtrudeCache :=
  { sources := [0, 1, 2], destinations := [110, 120, 130], geometry := 5,
    cache := { abc := 0, arcs := [(0, 1), (1, 2), (2, 0)] } }

/-- Concrete instantiation of `extrude_spec`: extruding the triangle
`triDemo` by 100 succeeds, removes face 0, returns top face 1, adds the
three translated vertices `3, 4, 5` and four faces. -/
theorem extrude_spec_witness :
    ∃ ek c2, extrudeWithCache triDemo extrudeDemoCache = .ok (ek, c2) ∧
      ek = 1 ∧ alookup c2.faces 0 = none ∧
      c2.vertices.length = 6 ∧
      c2.faces.length = 4 ∧
      alookup c2.vertices 3 = some { arc := none, geometry := 110 } := by
  have hwf : triDemo.WF :=
    Core.WF_of_entries _ (by decide) (by decide) (by decide) (by decide)
  have hok : (extrudeWithCache triDemo extrudeDemoCache).isOk = true := by decide
  rcases hres : extrudeWithCache triDemo extrudeDemoCache with ⟨ek, c2⟩ | e | _
  · obtain ⟨_, _, _, _, _, hek, _, hvlen, hvlook, hfnone, hflen, _, _⟩ :=
      extrude_spec triDemo 0 100 extrudeDemoCache ek c2 hwf (by decide) (by decide) hres
    refine ⟨ek, c2, rfl, ?_, hfnone, ?_, ?_, ?_⟩
    · rw [hek]
      decide
    · rw [hvlen]
      decide
    · rw [hflen]
      decide
    · have h := hvlook 0 (by decide)
      rw [show (3 : Nat) = triDemo.nextVertexKey + 0 from by decide, h]
      decide
  · rw [hres] at hok
    simp [MRes.isOk] at hok
  · rw [hres] at hok
    simp [MRes.isOk] at hok

/-! ## C6: bridge joins two equal-arity faces with a ladder of quads -/

/-- **C6**: in every well-formed core, for every pair of faces whose arities
(interior arc counts, as captured by their remove snapshots) differ, the
bridge fails with `ArityNonUniform` at snapshot time; and whenever a bridge
snapshot and the bridge run succeed, both faces are removed and exactly `n`
quadrilateral faces are created (`n` the common arity), the `i`-th joining
the `i`-th interior arc `(a, b)` of the source face with the `i`-th arc
`(c, d)` of the destination face's arcs traversed in reverse, owning exactly
the perimeter arcs of the ring `a, b, c, d`.  (The vertex/edge mutation
layers and view traversals used by the embedding are modelled from the
specification.) -/
theorem face_bridge_spec (c : Core) (hwf : c.WF) :
    (∀ (g1 g2 : Nat) (r1 r2 : FaceRemoveCache),
      FaceRemoveCache.snapshot c g1 = .ok r1 → FaceRemoveCache.snapshot c g2 = .ok r2 →
      r1.arcs.length ≠ r2.arcs.length →
      FaceBridgeCache.snapshot c g1 g2 = .err .arityNonUniform) ∧
    ∀ (fa fb : Nat) (cache : FaceBridgeCache) (c2 : Core),
      FaceBridgeCache.snapshot c fa fb = .ok cache →
      bridgeWithCache c cache = .ok c2 →
      cache.cache.1.abc = fa ∧
      cache.cache.2.abc = fb ∧
      cache.source.length = cache.destination.length ∧
      (cache.source.zip cache.destination.reverse).length = cache.source.length ∧
      fa ≠ fb ∧
      c2.vertices = c.vertices ∧
      alookup c2.faces fa = none ∧
      alookup c2.faces fb = none ∧
      c2.nextFaceKey = c.nextFaceKey + cache.source.length ∧
      c2.faces.length = c.faces.length - 2 + cache.source.length ∧
      ∀ i (hi : i < (cache.source.zip cache.destination.reverse).length),
        ∀ pr, (cache.source.zip cache.destination.reverse).get ⟨i, hi⟩ = pr →
          alookup c2.faces (c.nextFaceKey + i) =
            some { arc := pr.1, geometry := 0 } ∧
          ∀ k, arcFace c2 k = some (c.nextFaceKey + i) ↔
            k ∈ perimeter [pr.1.1, pr.1.2, pr.2.1, pr.2.2] := by
  refine ⟨?_, ?_⟩
  · intro g1 g2 r1 r2 h1 h2 hne
    simp only [FaceBridgeCache.snapshot, h1, h2]
    rw [if_pos hne]
  · intro fa fb cache c2 hsnap hrun
    -- unpack the snapshot
    unfold FaceBridgeCache.snapshot at hsnap
    split at hsnap
    case _ rcs h1 =>
      split at hsnap
      case _ rcd h2 =>
        split at hsnap
        · simp at hsnap
        case _ hlen =>
          simp only [MRes.ok.injEq] at hsnap
          have hcsrc : cache.source = rcs.arcs := by rw [← hsnap]
          have hcdst : cache.destination = rcd.arcs := by rw [← hsnap]
          have hcc1 : cache.cache.1 = rcs := by rw [← hsnap]
          have hcc2 : cache.cache.2 = rcd := by rw [← hsnap]
          have habc1 : rcs.abc = fa := (faceRemoveSnapshot_ok c fa rcs h1).1
          have habc2 : rcd.abc = fb := (faceRemoveSnapshot_ok c fb rcd h2).1
          have hslen : cache.source.length = cache.destination.length := by
            rw [hcsrc, hcdst]
            exact not_not.mp hlen
          have hziplen : (cache.source.zip cache.destination.reverse).length =
              cache.source.length := by
            rw [List.length_zip, List.length_reverse]
            omega
          -- unpack the run
          unfold bridgeWithCache at hrun
          split at hrun
          case _ fp1 c1 hrem1 =>
            obtain ⟨hlook1, hv1, hnv1, hnf1, hf1, haf1⟩ := removeWithCache_effect _ _ _ _ hrem1
            rw [hcc1, habc1] at hlook1 hf1
            have hwf1 : c1.WF := removeWithCache_WF _ _ _ _ hwf hrem1
            split at hrun
            case _ fp2 c1' hrem2 =>
              obtain ⟨hlook2, hv2, hnv2, hnf2, hf2, haf2⟩ :=
                removeWithCache_effect _ _ _ _ hrem2
              rw [hcc2, habc2] at hlook2 hf2
              have hwf1' : c1'.WF := removeWithCache_WF _ _ _ _ hwf1 hrem2
              have hfanefb : fa ≠ fb := by
                intro heq
                rw [hf1, ← heq, alookup_aerase_self] at hlook2
                simp at hlook2
              have hlookfb : alookup c.faces fb = some fp2 := by
                have h' := hlook2
                rw [hf1, alookup_aerase_ne _ _ _ (fun hh => hfanefb hh.symm)] at h'
                exact h'
              have hfalt : fa < c.nextFaceKey := hwf.faceKeyLt fa (by rw [hlook1]; rfl)
              have hfblt : fb < c.nextFaceKey := hwf.faceKeyLt fb (by rw [hlookfb]; rfl)
              have hrun2 : insertRings c1' ((cache.source.zip cache.destination.reverse).map
                  fun p => [p.1.1, p.1.2, p.2.1, p.2.2]) (0, 0) = .ok c2 := by
                unfold insertRings
                exact ((foldMRes_map
                  (fun c ring => (insertFace c ring ((0 : Int), (0 : Int))).map fun r => r.2)
                  (fun p : ArcKey × ArcKey => [p.1.1, p.1.2, p.2.1, p.2.2])
                  (cache.source.zip cache.destination.reverse) c1').symm).trans hrun
              obtain ⟨rhv, rhnv, rhnf, rhlen, rhout, rhidx, rhnone, rhsome, rhunch, rhwf⟩ :=
                insertRings_effect _ _ _ _ hwf1' hrun2
              have hc1nf : c1'.nextFaceKey = c.nextFaceKey := by rw [hnf2, hnf1]
              have hringslen : ((cache.source.zip cache.destination.reverse).map
                  fun p => [p.1.1, p.1.2, p.2.1, p.2.2]).length = cache.source.length := by
                rw [List.length_map, hziplen]
              refine ⟨by rw [hcc1]; exact habc1, by rw [hcc2]; exact habc2,
                hslen, hziplen, hfanefb, ?_, ?_, ?_, ?_, ?_, ?_⟩
              · rw [rhv, hv2, hv1]
              · -- source face is gone
                have hout : alookup c2.faces fa = alookup c1'.faces fa := by
                  refine rhout fa ?_
                  left
                  omega
                rw [hout, hf2, alookup_aerase_ne _ _ _ hfanefb, hf1, alookup_aerase_self]
              · -- destination face is gone
                have hout : alookup c2.faces fb = alookup c1'.faces fb := by
                  refine rhout fb ?_
                  left
                  omega
                rw [hout, hf2, alookup_aerase_self]
              · rw [rhnf, hc1nf, hringslen]
              · -- face count
                have e1 : c1.faces.length = c.faces.length - 1 := by
                  rw [hf1]
                  exact length_aerase _ _ hwf.facesNodup (by rw [hlook1]; rfl)
                have e2 : c1'.faces.length = c1.faces.length - 1 := by
                  rw [hf2]
                  exact length_aerase _ _ hwf1.facesNodup (by rw [hlook2]; rfl)
                have e3 := rhlen
                rw [hringslen] at e3
                have h1lt : 1 ≤ c.faces.length := by
                  rcases hl : c.faces with _ | _
                  · rw [hl] at hlook1
                    simp [alookup] at hlook1
                  · simp
                have h2lt : 1 ≤ c1.faces.length := by
                  rcases hl : c1.faces with _ | _
                  · rw [hl] at hlook2
                    simp [alookup] at hlook2
                  · simp
                omega
              · -- the quadrilaterals
                intro i hi pr hpr
                subst hpr
                have hi2 : i < ((cache.source.zip cache.destination.reverse).map
                    fun p => [p.1.1, p.1.2, p.2.1, p.2.2]).length := by
                  rw [List.length_map]
                  exact hi
                have hgeteq : (((cache.source.zip cache.destination.reverse).map
                    fun p => [p.1.1, p.1.2, p.2.1, p.2.2]).get ⟨i, hi2⟩) =
                    [((cache.source.zip cache.destination.reverse).get ⟨i, hi⟩).1.1,
                     ((cache.source.zip cache.destination.reverse).get ⟨i, hi⟩).1.2,
                     ((cache.source.zip cache.destination.reverse).get ⟨i, hi⟩).2.1,
                     ((cache.source.zip cache.destination.reverse).get ⟨i, hi⟩).2.2] := by
                  simp [List.get_eq_getElem, List.getElem_map]
                constructor
                · have hidx := rhidx i hi2
                  rw [hc1nf, hgeteq, perimeter_quadruple] at hidx
                  rw [hidx]
                  rfl
                · intro k
                  constructor
                  · intro harc
                    by_cases hex : ∃ j, ∃ hj : j <
                        ((cache.source.zip cache.destination.reverse).map
                          fun p => [p.1.1, p.1.2, p.2.1, p.2.2]).length,
                        k ∈ perimeter ((((cache.source.zip cache.destination.reverse).map
                          fun p => [p.1.1, p.1.2, p.2.1, p.2.2]).get ⟨j, hj⟩))
                    · obtain ⟨j, hj, hkj⟩ := hex
                      have hsome := rhsome j hj k hkj
                      rw [harc, hc1nf] at hsome
                      have hij : i = j := by
                        simp only [Option.some_inj] at hsome
                        omega
                      subst hij
                      rw [hgeteq, perimeter_quadruple] at hkj
                      exact hkj
                    · push_neg at hex
                      have hunch := rhunch k (fun j hj => hex j hj)
                      rw [harc] at hunch
                      have harc1' : arcFace c1' k = some (c.nextFaceKey + i) := hunch.symm
                      rw [haf2 k] at harc1'
                      by_cases hm2 : k ∈ cache.cache.2.arcs
                      · rw [if_pos hm2] at harc1'
                        simp at harc1'
                      · rw [if_neg hm2, haf1 k] at harc1'
                        by_cases hm1 : k ∈ cache.cache.1.arcs
                        · rw [if_pos hm1] at harc1'
                          simp at harc1'
                        · rw [if_neg hm1] at harc1'
                          have := hwf.arcFaceLt k _ harc1'
                          omega
                  · intro hk
                    have hkmem : k ∈ perimeter
                        ((((cache.source.zip cache.destination.reverse).map
                          fun p => [p.1.1, p.1.2, p.2.1, p.2.2]).get ⟨i, hi2⟩)) := by
                      rw [hgeteq, perimeter_quadruple]
                      exact hk
                    have h := rhsome i hi2 k hkmem
                    rw [h, hc1nf]
            · simp at hrun
            · simp at hrun
          · simp at hrun
          · simp at hrun
      · simp at hsnap
      · simp at hsnap
    · simp at hsnap
    · simp at hsnap

/-- A core with `n` vertices (payload 0), built through `insertVertex`. -/
def mkVerts : Nat → Core
  | 0 => {}
  | n + 1 => (insertVertex (mkVerts n) 0).2

/-- Two disjoint triangles over six vertices, built by the model's own face
insertion: face 0 over `0, 1, 2` and face 1 over `3, 4, 5`. -/
def twoTriDemo : Core :=
  match insertFace (mkVerts 6) [0, 1, 2] (0, 0) with
  | .ok r =>
    match insertFace r.2 [3, 4, 5] (0, 0) with
    | .ok r2 => r2.2
    | _ => {}
  | _ => {}

/-- The bridge cache that `FaceBridgeCache.snapshot twoTriDemo 0 1`
computes. -/
def bridgeDemoCache : FaceBridgeCache :=
  { source := [(0, 1), (1, 2), (2, 0)], destination := [(3, 4), (4, 5), (5, 3)],
    cache := ({ abc := 0, arcs := [(0, 1), (1, 2), (2, 0)] },
              { abc := 1, arcs := [(3, 4), (4, 5), (5, 3)] }) }

/-- A triangle (face 0 over `0, 1, 2`) and a quadrilateral (face 1 over
`3, 4, 5, 6`) over seven vertices, built by the model's own face insertion. -/
def triQuadDemo : Core :=
  match insertFace (mkVerts 7) [0, 1, 2] (0, 0) with
  | .ok r =>
    match insertFace r.2 [3, 4, 5, 6] (0, 0) with
    | .ok r2 => r2.2
    | _ => {}
  | _ => {}

/-- Concrete instantiation of `face_bridge_spec`, exercising both halves:
on `triQuadDemo` the triangle/quadrilateral arity mismatch makes the bridge
snapshot fail with `ArityNonUniform`; bridging the two equal-arity triangles
of `twoTriDemo` succeeds, removes faces 0 and 1, and creates the three
quadrilaterals 2, 3, 4 — the first anchored at the source arc `(0, 1)`. -/
theorem face_bridge_spec_witness :
    FaceBridgeCache.snapshot triQuadDemo 0 1 = .err .arityNonUniform ∧
    ∃ c2, bridgeWithCache twoTriDemo bridgeDemoCache = .ok c2 ∧
      alookup c2.faces 0 = none ∧ alookup c2.faces 1 = none ∧
      c2.faces.length = 3 ∧ c2.nextFaceKey = 5 ∧
      alookup c2.faces 2 = some { arc := (0, 1), geometry := 0 } := by
  have hwfq : triQuadDemo.WF :=
    Core.WF_of_entries _ (by decide) (by decide) (by decide) (by decide)
  have hwf : twoTriDemo.WF :=
    Core.WF_of_entries _ (by decide) (by decide) (by decide) (by decide)
  constructor
  · exact (face_bridge_spec triQuadDemo hwfq).1 0 1
      { abc := 0, arcs := [(0, 1), (1, 2), (2, 0)] }
      { abc := 1, arcs := [(3, 4), (4, 5), (5, 6), (6, 3)] }
      (by decide) (by decide) (by decide)
  · have hok : (bridgeWithCache twoTriDemo bridgeDemoCache).isOk = true := by decide
    rcases hres : bridgeWithCache twoTriDemo bridgeDemoCache with c2 | e | _
    · obtain ⟨_, _, _, _, _, _, hfa, hfb, hnf, hlen, hquads⟩ :=
        (face_bridge_spec twoTriDemo hwf).2 0 1 bridgeDemoCache c2 (by decide) hres
      refine ⟨c2, rfl, hfa, hfb, ?_, ?_, ?_⟩
      · rw [hlen]
        decide
      · rw [hnf]
        decide
      · have h := (hquads 0 (by decide) ((0, 1), (5, 3)) (by decide)).1
        rw [show (2 : Nat) = twoTriDemo.nextFaceKey + 0 from by decide, h]
    · rw [hres] at hok
      simp [MRes.isOk] at hok
    · rw [hres] at hok
      simp [MRes.isOk] at hok

end Plexus
